import Mathlib

/-!
Verification of the Ren'Py save editor's binary patch engine
(`src/renpy_save_editor.py`) against its specification.

Byte buffers are modelled as `List Nat` (each element a byte value `< 256`);
Python strings are modelled as their lists of Unicode code points.  All
definitions are direct translations of the corresponding Python functions;
loops are translated as fuel-based structural recursions where the fuel is
chosen to dominate the loop's iteration count, so that every definition
evaluates inside the kernel.
-/

/-! ## Byte-level helpers -/

/-- Python slice `data[start : start+len]` (clamped, as in Python). -/
def byteSlice (data : List Nat) (start len : Nat) : List Nat :=
  (data.drop start).take len

/-- Python slice `data[start : stop]` (clamped, as in Python). -/
def byteSliceTo (data : List Nat) (start stop : Nat) : List Nat :=
  (data.take stop).drop start

/-- Value of a little-endian byte list (`struct.unpack('<H')`, `'<I'` etc.). -/
def leVal : List Nat → Nat
  | [] => 0
  | b :: rest => b + 256 * leVal rest

/-- `len`-byte little-endian encoding of `x % 256^len` (Python
`int.to_bytes(len, 'little')` on an in-range value, `struct.pack('<H')`, …). -/
def toLE : Nat → Nat → List Nat
  | 0, _ => []
  | len + 1, x => (x % 256) :: toLE len (x / 256)

/-- Reinterpret an unsigned 32-bit value as signed (`struct.unpack('<i')`). -/
def signed32 (u : Nat) : Int :=
  if u < 2 ^ 31 then (u : Int) else (u : Int) - 2 ^ 32

/-- Python `int.from_bytes(bs, 'little', signed=True)`. -/
def fromLEsigned (bs : List Nat) : Int :=
  if bs.length = 0 then 0
  else if leVal bs < 2 ^ (8 * bs.length - 1) then (leVal bs : Int)
  else (leVal bs : Int) - 2 ^ (8 * bs.length)

/-- Fuel-based helper: counts how many times `n` can be halved until `0`. -/
def bitLenF : Nat → Nat → Nat
  | 0, _ => 0
  | fuel + 1, n => if n = 0 then 0 else bitLenF fuel (n / 2) + 1

/-- Python `int.bit_length()`: number of bits needed for `n` (0 for 0). -/
def pyBitLen (n : Nat) : Nat := bitLenF n n

/-! ## Python `bytes.find` -/

/-- Does `key` occur in `buf` starting at byte index `j`? -/
def occursAtB (buf key : List Nat) (j : Nat) : Bool :=
  decide (j + key.length ≤ buf.length) && ((buf.drop j).take key.length == key)

/-- Scan positions `start, start+1, …, start+steps-1` for an occurrence. -/
def bfindFrom (buf key : List Nat) : Nat → Nat → Option Nat
  | _, 0 => none
  | start, steps + 1 =>
    if occursAtB buf key start then some start
    else bfindFrom buf key (start + 1) steps

/-- Python `buf.find(key, start)`: least index `≥ start` where `key` occurs,
`none` (Python `-1`) when there is no occurrence or `start > len(buf)`. -/
def bfind (buf key : List Nat) (start : Nat) : Option Nat :=
  if buf.length < start then none
  else bfindFrom buf key start (buf.length + 1 - start)

/-! ## Legacy text-line number parsing

`_parse_value_at`'s `'I'`, `'F'` and `'S'` branches decode a newline-terminated
ASCII payload with Python's `int()` / `float()` / quoted-string conventions.
The grammars below follow CPython: surrounding whitespace is stripped, an
optional sign is allowed, and single underscores may separate digits. -/

/-- ASCII characters stripped by Python's numeric parsers
(`\t \n \v \f \r` space and the `\x1c`–`\x1f` separators). -/
def isPyWs (c : Nat) : Bool :=
  c == 9 || c == 10 || c == 11 || c == 12 || c == 13 || c == 32 ||
  c == 28 || c == 29 || c == 30 || c == 31

/-- Strip leading and trailing whitespace (Python `str.strip()` on ASCII). -/
def stripWs (l : List Nat) : List Nat :=
  ((l.dropWhile isPyWs).reverse.dropWhile isPyWs).reverse

def isDigitB (c : Nat) : Bool := 48 ≤ c && c ≤ 57

/-- Digits possibly separated by single underscores, accumulating the value;
the whole remaining input must be consumed. -/
def digitsUS : List Nat → Nat → Option Nat
  | [], acc => some acc
  | 95 :: c :: rest, acc =>
    if isDigitB c then digitsUS rest (acc * 10 + (c - 48)) else none
  | [95], _ => none
  | c :: rest, acc =>
    if isDigitB c then digitsUS rest (acc * 10 + (c - 48)) else none

/-- A nonempty underscore-separated digit run spanning the whole input. -/
def digitsRun : List Nat → Option Nat
  | c :: rest => if isDigitB c then digitsUS rest (c - 48) else none
  | [] => none

/-- Python `int(txt.decode('ascii'))`: `none` models the exception path. -/
def pyIntOfAscii (txt : List Nat) : Option Int :=
  if txt.all (· < 128) then
    match stripWs txt with
    | 43 :: rest => (digitsRun rest).map (fun n => (n : Int))
    | 45 :: rest => (digitsRun rest).map (fun n => -(n : Int))
    | rest => (digitsRun rest).map (fun n => (n : Int))
  else none

def toLowerB (c : Nat) : Nat := if 65 ≤ c && c ≤ 90 then c + 32 else c

/-- Consume `d(_?d)*` after an initial digit; returns the rest of the input,
failing on a misplaced underscore. -/
def scanMore : List Nat → Option (List Nat)
  | 95 :: c :: rest => if isDigitB c then scanMore rest else none
  | [95] => none
  | c :: rest => if isDigitB c then scanMore rest else some (c :: rest)
  | [] => some []

/-- Consume a nonempty underscore-separated digit run; return the rest. -/
def scanDigits : List Nat → Option (List Nat)
  | c :: rest => if isDigitB c then scanMore rest else none
  | [] => none

/-- Optional exponent part of a float literal (must end the input). -/
def expAfterSign (r : List Nat) : Bool :=
  match scanDigits r with
  | some [] => true
  | _ => false

def expPartOk : List Nat → Bool
  | [] => true
  | 101 :: 43 :: rest => expAfterSign rest
  | 101 :: 45 :: rest => expAfterSign rest
  | 101 :: rest => expAfterSign rest
  | 69 :: 43 :: rest => expAfterSign rest
  | 69 :: 45 :: rest => expAfterSign rest
  | 69 :: rest => expAfterSign rest
  | _ => false

/-- After the `'.'` of a float literal: optional digits, then exponent. -/
def fracPartOk (r : List Nat) : Bool :=
  match r with
  | [] => true
  | _ =>
    match scanDigits r with
    | some rest => expPartOk rest
    | none => expPartOk r

/-- Decimal float literal (sign already removed): `d+[.d*][exp]` or `.d+[exp]`. -/
def floatNumberOk (s : List Nat) : Bool :=
  match s with
  | 46 :: rest =>
    (match scanDigits rest with
     | some rest2 => expPartOk rest2
     | none => false)
  | _ =>
    match scanDigits s with
    | some (46 :: rest2) => fracPartOk rest2
    | some rest => expPartOk rest
    | none => false

def asciiOf (s : String) : List Nat := s.toList.map Char.toNat

/-- Does Python `float(txt.decode('ascii'))` succeed?  (The numeric value of
the resulting IEEE-754 double is never consumed anywhere in the program, so
the embedding only needs the success predicate; see `DecVal.legacyFloat`.) -/
def pyFloatOk (txt : List Nat) : Bool :=
  txt.all (· < 128) &&
  (let s := stripWs txt
   let s1 := match s with
     | 43 :: r => r
     | 45 :: r => r
     | r => r
   let sl := s1.map toLowerB
   sl == asciiOf "inf" || sl == asciiOf "infinity" || sl == asciiOf "nan" ||
     floatNumberOk s1)

/-! ## Pickle opcodes and scalar values (source lines 96–106) -/

def BINUNICODE : Nat := 0x58
def BININT1 : Nat := 0x4B
def BININT2 : Nat := 0x4D
def BININT : Nat := 0x4A
def BINFLOAT : Nat := 0x47
def NEWTRUE : Nat := 0x88
def NEWFALSE : Nat := 0x89
def LONG1 : Nat := 0x8A
def LONG4 : Nat := 0x8B
def BINSTRING : Nat := 0x54
def SHORT_BINSTRING : Nat := 0x55

/-- The `encoding_type` strings returned by `_parse_value_at`. -/
inductive Tag where
  | tBININT1 | tBININT2 | tBININT | tBINFLOAT | tBOOL | tINT | tFLOAT
  | tLONG1 | tLONG4 | tBINSTRING | tSHORT_BINSTRING | tSTRING
deriving DecidableEq, Repr

/-- A Python scalar value as the program manipulates it.  A `float` is
identified with the 8 bytes of its big-endian IEEE-754 representation
(`struct.pack('>d')`), a `str` with its list of Unicode code points;
`pyOther` stands for a value of any non-scalar type. -/
inductive PyVal where
  | pyBool (b : Bool)
  | pyInt (i : Int)
  | pyFloat (bits : List Nat)
  | pyStr (cs : List Nat)
  | pyOther (desc : String)
deriving DecidableEq, Repr

/-- A value produced by `_parse_value_at`.  The legacy `'F'` branch yields the
IEEE-754 parse of a text payload; that numeric value is never used by any
caller in the program (only the end position is), so the embedding carries
the ASCII text itself. -/
inductive DecVal where
  | scalar (v : PyVal)
  | legacyFloat (txt : List Nat)
deriving DecidableEq, Repr

/-- Python `s.replace("\\'", "'")` (left-to-right, non-overlapping). -/
def replaceEsc : List Nat → List Nat
  | 92 :: 39 :: rest => 39 :: replaceEsc rest
  | c :: rest => c :: replaceEsc rest
  | [] => []

/-- `_parse_value_at(data, pos)` (source lines 219–283): parse a scalar value
at `pos`, returning `(value, end_pos, encoding_type)` or `none`.  The source
is a chain of `if op == …` tests with early returns; since the opcode bytes
are pairwise distinct, a failed inner length guard falls through to the final
`return None`, which the `else none` arms below reproduce exactly. -/
def parse_value_at (data : List Nat) (pos : Nat) : Option (DecVal × Nat × Tag) :=
  let n := data.length
  if n ≤ pos then none else
  let op := data.getD pos 0
  if op = BININT1 ∧ pos + 2 ≤ n then
    some (.scalar (.pyInt (data.getD (pos + 1) 0)), pos + 2, .tBININT1)
  else if op = BININT2 ∧ pos + 3 ≤ n then
    some (.scalar (.pyInt (leVal (byteSlice data (pos + 1) 2))), pos + 3, .tBININT2)
  else if op = BININT ∧ pos + 5 ≤ n then
    some (.scalar (.pyInt (signed32 (leVal (byteSlice data (pos + 1) 4)))), pos + 5, .tBININT)
  else if op = BINFLOAT ∧ pos + 9 ≤ n then
    some (.scalar (.pyFloat (byteSlice data (pos + 1) 8)), pos + 9, .tBINFLOAT)
  else if op = NEWTRUE then
    some (.scalar (.pyBool true), pos + 1, .tBOOL)
  else if op = NEWFALSE then
    some (.scalar (.pyBool false), pos + 1, .tBOOL)
  else if op = 0x49 then
    match bfind data [10] pos with
    | some e =>
      match pyIntOfAscii (byteSliceTo data (pos + 1) e) with
      | some v => some (.scalar (.pyInt v), e + 1, .tINT)
      | none => none
    | none => none
  else if op = 0x46 then
    match bfind data [10] pos with
    | some e =>
      let txt := byteSliceTo data (pos + 1) e
      if pyFloatOk txt then some (.legacyFloat txt, e + 1, .tFLOAT) else none
    | none => none
  else if op = LONG1 ∧ pos + 2 ≤ n then
    let ln := data.getD (pos + 1) 0
    if pos + 2 + ln ≤ n then
      some (.scalar (.pyInt (fromLEsigned (byteSlice data (pos + 2) ln))), pos + 2 + ln, .tLONG1)
    else none
  else if op = LONG4 ∧ pos + 5 ≤ n then
    let ln := leVal (byteSlice data (pos + 1) 4)
    if pos + 5 + ln ≤ n then
      some (.scalar (.pyInt (fromLEsigned (byteSlice data (pos + 5) ln))), pos + 5 + ln, .tLONG4)
    else none
  else if op = BINSTRING ∧ pos + 5 ≤ n then
    let ln := leVal (byteSlice data (pos + 1) 4)
    if pos + 5 + ln ≤ n then
      some (.scalar (.pyStr (byteSlice data (pos + 5) ln)), pos + 5 + ln, .tBINSTRING)
    else none
  else if op = SHORT_BINSTRING ∧ pos + 2 ≤ n then
    let ln := data.getD (pos + 1) 0
    if pos + 2 + ln ≤ n then
      some (.scalar (.pyStr (byteSlice data (pos + 2) ln)), pos + 2 + ln, .tSHORT_BINSTRING)
    else none
  else if op = 0x53 then
    match bfind data [10] pos with
    | some e =>
      let txt := byteSliceTo data (pos + 1) e
      if txt.all (· < 128) then
        if txt.head? = some 39 ∧ txt.getLast? = some 39 then
          some (.scalar (.pyStr (replaceEsc ((txt.drop 1).dropLast))), e + 1, .tSTRING)
        else none
      else none
    | none => none
  else none

/-- Errors raised by `_encode_scalar`: the final `ValueError('Unsupported
type …')`, and `struct.error` from `struct.pack('<I', …)` on a length that
does not fit 4 bytes. -/
inductive EncErr where
  | unsupportedType (desc : String)
  | structRange
deriving DecidableEq, Repr

/-- `_encode_scalar(value)` (source lines 286–309). -/
def encode_scalar : PyVal → Except EncErr (List Nat)
  | .pyBool b => .ok [if b then NEWTRUE else NEWFALSE]
  | .pyInt v =>
    if 0 ≤ v ∧ v ≤ 0xFF then .ok [BININT1, v.toNat]
    else if 0 ≤ v ∧ v ≤ 0xFFFF then .ok (BININT2 :: toLE 2 v.toNat)
    else if -0x80000000 ≤ v ∧ v ≤ 0x7FFFFFFF then
      .ok (BININT :: toLE 4 (v % 2 ^ 32).toNat)
    else
      -- LONG4 for very large ints; `(bit_length + 8) // 8 or 1` — the
      -- `or 1` is dead since the quotient is always ≥ 1.
      let L := (pyBitLen v.natAbs + 8) / 8
      let mag := toLE L (v % (2 : Int) ^ (8 * L)).toNat
      if mag.length < 2 ^ 32 then .ok (LONG4 :: (toLE 4 mag.length ++ mag))
      else .error .structRange
  | .pyFloat bits => .ok (BINFLOAT :: bits)
  | .pyStr cs =>
    let encoded := cs.map (fun c => if c ≤ 255 then c else 0x3F)
    if encoded.length ≤ 255 then
      .ok (SHORT_BINSTRING :: encoded.length :: encoded)
    else if encoded.length < 2 ^ 32 then
      .ok (BINSTRING :: (toLE 4 encoded.length ++ encoded))
    else .error .structRange
  | .pyOther desc => .error (.unsupportedType desc)

/-! ## Bytecode patch engine (`patch_variable_in_log`, source lines 340–403) -/

/-- One of the two memo-skip loops: `while pos < n and buf[pos] == opcode:
pos += step`.  Each iteration advances `pos` by `step ≥ 2` from a position
`< n`, so fuel `n + 1` always completes the loop; on exhaustion the current
position is returned, which coincides with the loop-exit value whenever the
fuel was sufficient. -/
def skipOpsF (buf : List Nat) (opcode step : Nat) : Nat → Nat → Nat
  | pos, 0 => pos
  | pos, fuel + 1 =>
    if pos < buf.length ∧ buf.getD pos 0 = opcode then
      skipOpsF buf opcode step (pos + step) fuel
    else pos

/-- Skip optional memo opcodes after a matched key: first a run of `BINPUT`
(`0x71`, 2 bytes each), then a run of `LONG_BINPUT` (`0x72`, 5 bytes each) —
in that order, exactly as in the source. -/
def skipMemo (buf : List Nat) (pos : Nat) : Nat :=
  skipOpsF buf 0x72 5 (skipOpsF buf 0x71 2 pos (buf.length + 1)) (buf.length + 1)

/-- The structural header check performed at a found occurrence `idx` of the
key bytes: an `if / elif / elif` chain over SHORT_BINSTRING, BINSTRING and
BINUNICODE headers.  As in the source, a SHORT_BINSTRING opcode two bytes
before the match shadows the two 4-byte-length checks even when its length
byte does not match. -/
def structMatched (buf key : List Nat) (idx : Nat) : Bool :=
  if 2 ≤ idx ∧ buf.getD (idx - 2) 0 = SHORT_BINSTRING then
    buf.getD (idx - 1) 0 == key.length
  else if 5 ≤ idx ∧ buf.getD (idx - 5) 0 = BINSTRING then
    leVal (byteSlice buf (idx - 4) 4) == key.length
  else if 5 ≤ idx ∧ buf.getD (idx - 5) 0 = BINUNICODE then
    leVal (byteSlice buf (idx - 4) 4) == key.length
  else false

/-- An occurrence of the key bytes that passes the structural header check. -/
def structOccB (buf key : List Nat) (idx : Nat) : Bool :=
  occursAtB buf key idx && structMatched buf key idx

/-- A structurally matched occurrence that is followed (after memo-skip) by a
decodable scalar — the patch target condition. -/
def qualifiesB (buf key : List Nat) (idx : Nat) : Bool :=
  structOccB buf key idx &&
    (parse_value_at buf (skipMemo buf (idx + key.length))).isSome

/-- The three `KeyError` outcomes of `patch_variable_in_log`:
variable not found, found but no recognized value encoding, and the
"Cannot encode value" wrapper around an `_encode_scalar` failure. -/
inductive PatchErr where
  | varNotFound
  | ambiguous
  | cannotEncode
deriving DecidableEq, Repr

/-- The code after the scan loop: `matches_found == 0` decides between the
two failure messages. -/
def patchFinish (mf : Nat) : Except PatchErr (List Nat) :=
  if mf = 0 then .error .varNotFound else .error .ambiguous

/-- What the loop body does at a structurally matched occurrence `idx` whose
value position parses: replace the value span with the new encoding (the
`none` arm is never taken when a parse exists). -/
def patchAtMatch (buf key : List Nat) (v : PyVal) (idx : Nat) :
    Except PatchErr (List Nat) :=
  let pos := skipMemo buf (idx + key.length)
  match parse_value_at buf pos with
  | some (_, vend, _) =>
    match encode_scalar v with
    | .ok rep => .ok (buf.take pos ++ rep ++ buf.drop vend)
    | .error _ => .error .cannotEncode
  | none => .error .varNotFound

/-- The scan loop of `patch_variable_in_log`: `i` is the search start, `mf`
the running `matches_found`.  Every iteration restarts the search at
`idx + 1 > i`, so fuel `len(buf) + 1` always suffices; on exhaustion `i`
exceeds `len(buf)` and the returned `patchFinish mf` coincides with the
loop-exit path. -/
def patchLoopF (buf key : List Nat) (v : PyVal) : Nat → Nat → Nat → Except PatchErr (List Nat)
  | _, mf, 0 => patchFinish mf
  | i, mf, fuel + 1 =>
    if i < buf.length then
      match bfind buf key i with
      | none => patchFinish mf
      | some idx =>
        if structMatched buf key idx then
          match parse_value_at buf (skipMemo buf (idx + key.length)) with
          | some _ => patchAtMatch buf key v idx
          | none => patchLoopF buf key v (idx + 1) (mf + 1) fuel
        else patchLoopF buf key v (idx + 1) mf fuel
    else patchFinish mf

/-- `patch_variable_in_log(log_bytes, key, new_value)` (source lines 340–403).
`key` is the `latin-1` encoding of the variable name (byte-per-code-point).
The buffer is immutable: the result is always a fresh
`prefix ++ new_encoding ++ suffix` value. -/
def patch_variable_in_log (logBytes key : List Nat) (newValue : PyVal) :
    Except PatchErr (List Nat) :=
  patchLoopF logBytes key newValue 0 0 (logBytes.length + 1)

/-! ## Selective deserializer (`SafeUnpickler`, `load_save_variables`,
source lines 190–212 and 316–337)

The pickle virtual machine itself is Python-stdlib code, external to the
repository; the repository's contribution is (a) `find_class`, the
capability-bounded class dispatcher, and (b) the post-load filtering of the
root mapping.  Both are embedded directly; the already-unpickled root object
is the input. -/

/-- Result of `SafeUnpickler.find_class(module, name)`.  `builtinsLookup`
models `getattr(importlib.import_module('builtins'), name)` — a live lookup
in the real `builtins` module that yields a real class/function, or raises
`AttributeError` when no such attribute exists; it is *not* the inert
placeholder.  `proxy` models `type(name, (_Proxy,), {})`. -/
inductive ClassKind where
  | revList
  | revDict
  | revSet
  | simpleDefaultDict
  | simpleOrderedDict
  | builtinsLookup (name : String)
  | proxy (name : String)
deriving DecidableEq, Repr

def ClassKind.isProxy : ClassKind → Bool
  | .proxy _ => true
  | _ => false

/-- The `_SPECIAL` table (source lines 190–196). -/
def specialTable : List ((String × String) × ClassKind) :=
  [(("renpy.revertable", "RevertableList"), .revList),
   (("renpy.revertable", "RevertableDict"), .revDict),
   (("renpy.revertable", "RevertableSet"), .revSet),
   (("collections", "defaultdict"), .simpleDefaultDict),
   (("collections", "OrderedDict"), .simpleOrderedDict)]

/-- `SafeUnpickler.find_class` (source lines 199–212): exact
`(module, name)` match, then bare-name fallback, then the `builtins`
escape hatch, and only then the inert `_Proxy` subclass. -/
def find_class (module name : String) : ClassKind :=
  match specialTable.lookup (module, name) with
  | some k => k
  | none =>
    if name = "RevertableList" then .revList
    else if name = "RevertableDict" then .revDict
    else if name = "RevertableSet" then .revSet
    else if module = "builtins" then .builtinsLookup name
    else .proxy name

/-- A deserialized Python object as far as `load_save_variables` inspects it:
scalars, the root dict, instances of dynamically created `_Proxy` subclasses,
and everything else (containers, callables, …). -/
inductive PyObj where
  | oBool (b : Bool)
  | oInt (i : Int)
  | oFloat (bits : List Nat)
  | oStr (cs : List Nat)
  | oDict (entries : List (PyObj × PyObj))
  | oProxyInst (cls : String)
  | oOther (desc : String)

/-- `isinstance(v, (int, float, bool, str))` (source line 330). -/
def isEditableScalar : PyObj → Bool
  | .oBool _ => true
  | .oInt _ => true
  | .oFloat _ => true
  | .oStr _ => true
  | _ => false

/-- `k.startswith('store.')` on a string's code points. -/
def startsStoreDot (k : List Nat) : Bool :=
  k.take 6 == [115, 116, 111, 114, 101, 46]

/-- The filtering loop of `load_save_variables` (source lines 326–331):
keep entries whose key is a string with the `store.` prefix and whose value
is an editable scalar. -/
def buildVariables (entries : List (PyObj × PyObj)) : List (List Nat × PyObj) :=
  entries.filterMap fun kv =>
    match kv.1 with
    | .oStr cs =>
      if startsStoreDot cs && isEditableScalar kv.2 then some (cs, kv.2) else none
    | _ => none

/-- `load_save_variables` after unpickling (source lines 322–337): given the
already-unpickled `roots` object and the raw log, return the variables table
and the log — or `({}, None)`, silently, when `roots` is not a dict. -/
def load_save_variables (roots : PyObj) (log : List Nat) :
    List (List Nat × PyObj) × Option (List Nat) :=
  match roots with
  | .oDict entries => (buildVariables entries, some log)
  | _ => ([], none)

def isDictObj : PyObj → Bool
  | .oDict _ => true
  | _ => false

/-! ## Archive repackager (`save_modified_save`, source lines 405–426) -/

/-- One archive entry.  `otherMeta` stands for the `ZipInfo` metadata fields
other than `date_time` and `external_attr` (flags, comment, create system,
…), which a freshly constructed `ZipInfo` resets to its defaults, written
`0` here.  `compressType` is `0` for STORED and `8` for DEFLATED. -/
structure ZipEntry where
  name : String
  dateTime : Nat
  externalAttr : Nat
  otherMeta : Nat
  compressType : Nat
  content : List Nat
deriving DecidableEq, Repr

def ZIP_DEFLATED : Nat := 8

/-- `zin.read(name)`: `zipfile` resolves a name through `NameToInfo`, which
maps each name to its *last* entry of that name. -/
def zread (src : List ZipEntry) (nm : String) : List Nat :=
  match (src.filter (fun e => e.name == nm)).getLast? with
  | some e => e.content
  | none => []

/-- `save_modified_save(src, dst, modified_log)` (source lines 405–426),
with the signature generator passed explicitly (`_signatures_for_log` reads
the filesystem; see `signatures_for_log` below).  Iterates over
`zin.infolist()` in order: the `log` and `signatures` entries are rebuilt as
fresh `ZipInfo`s copying only `date_time` and `external_attr` and forcing
DEFLATED compression; every other entry is written with its own `ZipInfo`
(hence its own compression method and metadata) and the bytes of
`zin.read(item.filename)`. -/
def save_modified_save (src : List ZipEntry) (modifiedLog : List Nat)
    (sigOf : List Nat → List Nat) : List ZipEntry :=
  src.map fun item =>
    if item.name = "log" then
      { name := item.name, dateTime := item.dateTime,
        externalAttr := item.externalAttr, otherMeta := 0,
        compressType := ZIP_DEFLATED, content := modifiedLog }
    else if item.name = "signatures" then
      { name := item.name, dateTime := item.dateTime,
        externalAttr := item.externalAttr, otherMeta := 0,
        compressType := ZIP_DEFLATED, content := sigOf modifiedLog }
    else
      { item with content := zread src item.name }

/-! ## Signature engine (`_find_security_keys`, `_signatures_for_log`,
source lines 24–37 and 61–89)

Filesystem contents, environment variables and the `ecdsa` library are
external to the repository; they enter as the fields of `SignEnv`.  The
control flow of the two functions is embedded exactly. -/

/-- Standard base64 alphabet, by 6-bit value. -/
def b64char (i : Nat) : Nat :=
  if i < 26 then 65 + i
  else if i < 52 then 97 + (i - 26)
  else if i < 62 then 48 + (i - 52)
  else if i = 62 then 43
  else 47

/-- `base64.b64encode` on raw bytes (with `=` padding, code point 61). -/
def b64encode : List Nat → List Nat
  | [] => []
  | [a] =>
    [b64char (a / 4), b64char (a % 4 * 16), 61, 61]
  | [a, b] =>
    [b64char (a / 4), b64char (a % 4 * 16 + b / 16), b64char (b % 16 * 4), 61]
  | a :: b :: c :: rest =>
    b64char (a / 4) :: b64char (a % 4 * 16 + b / 16) ::
      b64char (b % 16 * 4 + c / 64) :: b64char (c % 64) :: b64encode rest

/-- The external world of the signature engine. -/
structure SignEnv where
  /-- `os.path.exists`. -/
  fsHasFile : String → Bool
  /-- The candidate key-store paths of `_find_security_keys`, in order
  (their exact spelling depends on home directory and environment
  variables). -/
  candidatePaths : List String
  /-- The DER keys `_load_signing_keys` parses out of the file at a path:
  one entry per `signing-key <base64>` record whose base64 payload decodes. -/
  keysInStore : String → List (List Nat)
  /-- Does `import ecdsa` succeed? -/
  ecdsaAvailable : Bool
  /-- For one DER key and the log bytes: `some (vk_der, sig)` when
  `SigningKey.from_der`, `verifying_key` and `sign` all succeed, `none`
  when the key fails to parse, has no verifying key, or fails to sign
  (the `continue` paths). -/
  derSign : List Nat → List Nat → Option (List Nat × List Nat)

/-- `_find_security_keys()` (source lines 24–37): first existing candidate
path wins, else `None`. -/
def find_security_keys (env : SignEnv) : Option String :=
  env.candidatePaths.find? env.fsHasFile

/-- One `'signature <b64(vk_der)> <b64(sig)>'` line. -/
def signatureLine (vkDer sig : List Nat) : List Nat :=
  asciiOf "signature " ++ b64encode vkDer ++ [32] ++ b64encode sig

/-- Python `'\n'.join(lines)` on byte lines. -/
def joinNlSep : List (List Nat) → List Nat
  | [] => []
  | [l] => l
  | l :: rest => l ++ [10] ++ joinNlSep rest

/-- `_signatures_for_log(log_bytes)` (source lines 61–89): empty bytes when
there is no key store, no parsed keys, no `ecdsa` module, or no successful
key; otherwise `'\n'.join(lines) + '\n'`. -/
def signatures_for_log (env : SignEnv) (logBytes : List Nat) : List Nat :=
  match find_security_keys env with
  | none => []
  | some p =>
    let keys := env.keysInStore p
    if keys.isEmpty then []
    else if !env.ecdsaAvailable then []
    else
      let lines := keys.filterMap fun der =>
        (env.derSign der logBytes).map fun pr => signatureLine pr.1 pr.2
      if lines.isEmpty then []
      else joinNlSep lines ++ [10]

/-- A concrete signature-engine environment: two candidate paths of which
the second exists, a store of two DER keys of which the first fails to
parse, and a working `ecdsa` module. -/
def envW : SignEnv where
  fsHasFile := fun s => s == "home/keys"
  candidatePaths := ["missing", "home/keys"]
  keysInStore := fun _ => [[1], [2]]
  ecdsaAvailable := true
  derSign := fun der _ => if der == [1] then none else some ([3], [4])

/-! ## Support predicates for the round-trip property -/

/-- Is the 8-byte big-endian IEEE-754 representation a finite double
(exponent bits not all ones)?  Also demands genuine byte values. -/
def finiteFloatBits (bits : List Nat) : Bool :=
  bits.length == 8 && bits.all (· < 256) &&
    !(bits.getD 0 0 % 128 == 127 && bits.getD 1 0 / 16 == 15)

/-- The scalar values covered by the round-trip property: booleans, all
integers, finite floats, and strings whose characters are code points
0–255 (the ones `latin-1` encodes losslessly). -/
def supportedScalar : PyVal → Bool
  | .pyBool _ => true
  | .pyInt _ => true
  | .pyFloat bits => finiteFloatBits bits
  | .pyStr cs => cs.all (· < 256)
  | .pyOther _ => false

/-- The tag that decoding an `_encode_scalar` output is expected to report,
by the encoder's branch structure. -/
def chosenTag : PyVal → Tag
  | .pyBool _ => .tBOOL
  | .pyInt v =>
    if 0 ≤ v ∧ v ≤ 0xFF then .tBININT1
    else if 0 ≤ v ∧ v ≤ 0xFFFF then .tBININT2
    else if -0x80000000 ≤ v ∧ v ≤ 0x7FFFFFFF then .tBININT
    else .tLONG4
  | .pyFloat _ => .tBINFLOAT
  | .pyStr cs =>
    if cs.length ≤ 255 then .tSHORT_BINSTRING else .tBINSTRING
  | .pyOther _ => .tBOOL

/-! ## Lemmas about `bfind` and the memo skip -/

theorem occursAtB_iff {buf key : List Nat} {j : Nat} :
    occursAtB buf key j = true ↔
      j + key.length ≤ buf.length ∧ (buf.drop j).take key.length = key := by
  simp [occursAtB]

theorem occursAtB_bound {buf key : List Nat} {j : Nat}
    (h : occursAtB buf key j = true) : j + key.length ≤ buf.length :=
  (occursAtB_iff.mp h).1

theorem bfindFrom_eq_some {buf key : List Nat} :
    ∀ steps start j, bfindFrom buf key start steps = some j →
      start ≤ j ∧ j < start + steps ∧ occursAtB buf key j = true ∧
        ∀ k, start ≤ k → k < j → occursAtB buf key k = false := by
  intro steps
  induction steps with
  | zero => intro start j h; simp [bfindFrom] at h
  | succ n ih =>
    intro start j h
    simp only [bfindFrom] at h
    by_cases hocc : occursAtB buf key start = true
    · rw [if_pos hocc] at h
      cases h
      exact ⟨le_refl _, by omega, hocc, fun k hk1 hk2 => by omega⟩
    · rw [if_neg hocc] at h
      obtain ⟨h1, h2, h3, h4⟩ := ih (start + 1) j h
      refine ⟨by omega, by omega, h3, fun k hk1 hk2 => ?_⟩
      rcases Nat.eq_or_lt_of_le hk1 with rfl | hlt
      · exact Bool.eq_false_iff.mpr hocc
      · exact h4 k hlt hk2

theorem bfindFrom_eq_none {buf key : List Nat} :
    ∀ steps start, bfindFrom buf key start steps = none →
      ∀ j, start ≤ j → j < start + steps → occursAtB buf key j = false := by
  intro steps
  induction steps with
  | zero => intro start _ j h1 h2; omega
  | succ n ih =>
    intro start h j h1 h2
    simp only [bfindFrom] at h
    by_cases hocc : occursAtB buf key start = true
    · rw [if_pos hocc] at h; cases h
    · rw [if_neg hocc] at h
      rcases Nat.eq_or_lt_of_le h1 with rfl | hlt
      · exact Bool.eq_false_iff.mpr hocc
      · exact ih (start + 1) h j hlt (by omega)

theorem bfind_spec {buf key : List Nat} {start j : Nat}
    (h : bfind buf key start = some j) :
    start ≤ j ∧ occursAtB buf key j = true ∧
      ∀ k, start ≤ k → k < j → occursAtB buf key k = false := by
  unfold bfind at h
  split at h
  · cases h
  · obtain ⟨h1, _, h3, h4⟩ := bfindFrom_eq_some _ _ _ h
    exact ⟨h1, h3, h4⟩

theorem bfind_eq_none {buf key : List Nat} {start : Nat}
    (h : bfind buf key start = none) :
    ∀ j, start ≤ j → occursAtB buf key j = false := by
  intro j hj
  unfold bfind at h
  split at h
  · next hlen =>
    by_contra hocc
    have := occursAtB_bound (Bool.of_not_eq_false hocc)
    omega
  · next hlen =>
    by_cases hjn : j ≤ buf.length
    · exact bfindFrom_eq_none _ _ h j hj (by omega)
    · by_contra hocc
      have := occursAtB_bound (Bool.of_not_eq_false hocc)
      omega

theorem skipOpsF_ge (buf : List Nat) (opcode step : Nat) :
    ∀ fuel pos, pos ≤ skipOpsF buf opcode step pos fuel := by
  intro fuel
  induction fuel with
  | zero => intro pos; simp [skipOpsF]
  | succ n ih =>
    intro pos
    simp only [skipOpsF]
    split
    · exact le_trans (Nat.le_add_right pos step) (ih (pos + step))
    · exact le_refl _

theorem skipMemo_ge (buf : List Nat) (pos : Nat) : pos ≤ skipMemo buf pos :=
  le_trans (skipOpsF_ge buf 0x71 2 (buf.length + 1) pos)
    (skipOpsF_ge buf 0x72 5 (buf.length + 1) _)

/-! ## Interface safety of the scalar decoder -/

theorem bfind_newline_bounds {data : List Nat} {pos e : Nat}
    (h : bfind data [10] pos = some e) : pos ≤ e ∧ e + 1 ≤ data.length := by
  obtain ⟨h1, h2, -⟩ := bfind_spec h
  exact ⟨h1, by simpa using occursAtB_bound h2⟩

theorem parse_value_at_bounds {data : List Nat} {pos : Nat} {dv : DecVal}
    {e : Nat} {t : Tag}
    (h : parse_value_at data pos = some (dv, e, t)) :
    pos < e ∧ e ≤ data.length := by
  have proj : ∀ {x y : DecVal × Nat × Tag}, some x = some y → x.2.1 = y.2.1 :=
    fun hxy => congrArg (fun q => q.2.1) (Option.some.inj hxy)
  unfold parse_value_at at h
  cases hnl : bfind data [10] pos with
  | none =>
    rw [hnl] at h
    dsimp only [] at h
    by_cases c0 : data.length ≤ pos
    · rw [if_pos c0] at h; exact Option.noConfusion h
    rw [if_neg c0] at h
    by_cases c1 : data.getD pos 0 = BININT1 ∧ pos + 2 ≤ data.length
    · rw [if_pos c1] at h; have he := proj h; dsimp only [] at he; omega
    rw [if_neg c1] at h
    by_cases c2 : data.getD pos 0 = BININT2 ∧ pos + 3 ≤ data.length
    · rw [if_pos c2] at h; have he := proj h; dsimp only [] at he; omega
    rw [if_neg c2] at h
    by_cases c3 : data.getD pos 0 = BININT ∧ pos + 5 ≤ data.length
    · rw [if_pos c3] at h; have he := proj h; dsimp only [] at he; omega
    rw [if_neg c3] at h
    by_cases c4 : data.getD pos 0 = BINFLOAT ∧ pos + 9 ≤ data.length
    · rw [if_pos c4] at h; have he := proj h; dsimp only [] at he; omega
    rw [if_neg c4] at h
    by_cases c5 : data.getD pos 0 = NEWTRUE
    · rw [if_pos c5] at h; have he := proj h; dsimp only [] at he; omega
    rw [if_neg c5] at h
    by_cases c6 : data.getD pos 0 = NEWFALSE
    · rw [if_pos c6] at h; have he := proj h; dsimp only [] at he; omega
    rw [if_neg c6] at h
    by_cases c7 : data.getD pos 0 = 73
    · rw [if_pos c7] at h; exact Option.noConfusion h
    rw [if_neg c7] at h
    by_cases c8 : data.getD pos 0 = 70
    · rw [if_pos c8] at h; exact Option.noConfusion h
    rw [if_neg c8] at h
    by_cases c9 : data.getD pos 0 = LONG1 ∧ pos + 2 ≤ data.length
    · rw [if_pos c9] at h
      by_cases c9b : pos + 2 + data.getD (pos + 1) 0 ≤ data.length
      · rw [if_pos c9b] at h; have he := proj h; dsimp only [] at he; omega
      · rw [if_neg c9b] at h; exact Option.noConfusion h
    rw [if_neg c9] at h
    by_cases c10 : data.getD pos 0 = LONG4 ∧ pos + 5 ≤ data.length
    · rw [if_pos c10] at h
      by_cases c10b : pos + 5 + leVal (byteSlice data (pos + 1) 4) ≤ data.length
      · rw [if_pos c10b] at h; have he := proj h; dsimp only [] at he; omega
      · rw [if_neg c10b] at h; exact Option.noConfusion h
    rw [if_neg c10] at h
    by_cases c11 : data.getD pos 0 = BINSTRING ∧ pos + 5 ≤ data.length
    · rw [if_pos c11] at h
      by_cases c11b : pos + 5 + leVal (byteSlice data (pos + 1) 4) ≤ data.length
      · rw [if_pos c11b] at h; have he := proj h; dsimp only [] at he; omega
      · rw [if_neg c11b] at h; exact Option.noConfusion h
    rw [if_neg c11] at h
    by_cases c12 : data.getD pos 0 = SHORT_BINSTRING ∧ pos + 2 ≤ data.length
    · rw [if_pos c12] at h
      by_cases c12b : pos + 2 + data.getD (pos + 1) 0 ≤ data.length
      · rw [if_pos c12b] at h; have he := proj h; dsimp only [] at he; omega
      · rw [if_neg c12b] at h; exact Option.noConfusion h
    rw [if_neg c12] at h
    by_cases c13 : data.getD pos 0 = 83
    · rw [if_pos c13] at h; exact Option.noConfusion h
    rw [if_neg c13] at h
    exact Option.noConfusion h
  | some nl =>
    rw [hnl] at h
    dsimp only [] at h
    have hb := bfind_newline_bounds hnl
    by_cases c0 : data.length ≤ pos
    · rw [if_pos c0] at h; exact Option.noConfusion h
    rw [if_neg c0] at h
    by_cases c1 : data.getD pos 0 = BININT1 ∧ pos + 2 ≤ data.length
    · rw [if_pos c1] at h; have he := proj h; dsimp only [] at he; omega
    rw [if_neg c1] at h
    by_cases c2 : data.getD pos 0 = BININT2 ∧ pos + 3 ≤ data.length
    · rw [if_pos c2] at h; have he := proj h; dsimp only [] at he; omega
    rw [if_neg c2] at h
    by_cases c3 : data.getD pos 0 = BININT ∧ pos + 5 ≤ data.length
    · rw [if_pos c3] at h; have he := proj h; dsimp only [] at he; omega
    rw [if_neg c3] at h
    by_cases c4 : data.getD pos 0 = BINFLOAT ∧ pos + 9 ≤ data.length
    · rw [if_pos c4] at h; have he := proj h; dsimp only [] at he; omega
    rw [if_neg c4] at h
    by_cases c5 : data.getD pos 0 = NEWTRUE
    · rw [if_pos c5] at h; have he := proj h; dsimp only [] at he; omega
    rw [if_neg c5] at h
    by_cases c6 : data.getD pos 0 = NEWFALSE
    · rw [if_pos c6] at h; have he := proj h; dsimp only [] at he; omega
    rw [if_neg c6] at h
    by_cases c7 : data.getD pos 0 = 73
    · rw [if_pos c7] at h
      cases hiv : pyIntOfAscii (byteSliceTo data (pos + 1) nl) with
      | none => rw [hiv] at h; dsimp only [] at h; exact Option.noConfusion h
      | some v => rw [hiv] at h; dsimp only [] at h; have he := proj h; dsimp only [] at he; omega
    rw [if_neg c7] at h
    by_cases c8 : data.getD pos 0 = 70
    · rw [if_pos c8] at h
      by_cases c8b : pyFloatOk (byteSliceTo data (pos + 1) nl) = true
      · rw [if_pos c8b] at h; have he := proj h; dsimp only [] at he; omega
      · rw [if_neg c8b] at h; exact Option.noConfusion h
    rw [if_neg c8] at h
    by_cases c9 : data.getD pos 0 = LONG1 ∧ pos + 2 ≤ data.length
    · rw [if_pos c9] at h
      by_cases c9b : pos + 2 + data.getD (pos + 1) 0 ≤ data.length
      · rw [if_pos c9b] at h; have he := proj h; dsimp only [] at he; omega
      · rw [if_neg c9b] at h; exact Option.noConfusion h
    rw [if_neg c9] at h
    by_cases c10 : data.getD pos 0 = LONG4 ∧ pos + 5 ≤ data.length
    · rw [if_pos c10] at h
      by_cases c10b : pos + 5 + leVal (byteSlice data (pos + 1) 4) ≤ data.length
      · rw [if_pos c10b] at h; have he := proj h; dsimp only [] at he; omega
      · rw [if_neg c10b] at h; exact Option.noConfusion h
    rw [if_neg c10] at h
    by_cases c11 : data.getD pos 0 = BINSTRING ∧ pos + 5 ≤ data.length
    · rw [if_pos c11] at h
      by_cases c11b : pos + 5 + leVal (byteSlice data (pos + 1) 4) ≤ data.length
      · rw [if_pos c11b] at h; have he := proj h; dsimp only [] at he; omega
      · rw [if_neg c11b] at h; exact Option.noConfusion h
    rw [if_neg c11] at h
    by_cases c12 : data.getD pos 0 = SHORT_BINSTRING ∧ pos + 2 ≤ data.length
    · rw [if_pos c12] at h
      by_cases c12b : pos + 2 + data.getD (pos + 1) 0 ≤ data.length
      · rw [if_pos c12b] at h; have he := proj h; dsimp only [] at he; omega
      · rw [if_neg c12b] at h; exact Option.noConfusion h
    rw [if_neg c12] at h
    by_cases c13 : data.getD pos 0 = 83
    · rw [if_pos c13] at h
      by_cases c13b : (byteSliceTo data (pos + 1) nl).all (fun x => x < 128) = true
      · rw [if_pos c13b] at h
        by_cases c13c : (byteSliceTo data (pos + 1) nl).head? = some 39 ∧ (byteSliceTo data (pos + 1) nl).getLast? = some 39
        · rw [if_pos c13c] at h; have he := proj h; dsimp only [] at he; omega
        · rw [if_neg c13c] at h; exact Option.noConfusion h
      · rw [if_neg c13b] at h; exact Option.noConfusion h
    rw [if_neg c13] at h
    exact Option.noConfusion h

/-! ## Characterizing the patch scan loop -/

theorem qualifiesB_iff {buf key : List Nat} {idx : Nat} :
    qualifiesB buf key idx = true ↔
      occursAtB buf key idx = true ∧ structMatched buf key idx = true ∧
        (parse_value_at buf (skipMemo buf (idx + key.length))).isSome = true := by
  simp [qualifiesB, structOccB, Bool.and_assoc]

theorem structOccB_parts {buf key : List Nat} {idx : Nat}
    (h : structOccB buf key idx = true) :
    occursAtB buf key idx = true ∧ structMatched buf key idx = true := by
  simpa [structOccB] using h

theorem patchLoopF_success (buf key : List Nat) (v : PyVal) (idx : Nat)
    (hq : qualifiesB buf key idx = true) :
    ∀ fuel i mf, i ≤ idx → buf.length + 1 ≤ fuel + i →
      (∀ j, i ≤ j → j < idx → qualifiesB buf key j = false) →
      patchLoopF buf key v i mf fuel = patchAtMatch buf key v idx := by
  obtain ⟨hocc, hsm, hps⟩ := qualifiesB_iff.mp hq
  obtain ⟨⟨dvx, ex, tx⟩, hparse⟩ := Option.isSome_iff_exists.mp hps
  have hbounds := parse_value_at_bounds hparse
  have hskip := skipMemo_ge buf (idx + key.length)
  have hidxlt : idx < buf.length := by omega
  intro fuel
  induction fuel with
  | zero => intro i mf h1 h2 h3; omega
  | succ f ih =>
    intro i mf h1 h2 h3
    have hguard : i < buf.length := by omega
    simp only [patchLoopF]
    rw [if_pos hguard]
    cases hf : bfind buf key i with
    | none =>
      exfalso
      have hc := bfind_eq_none hf idx h1
      rw [hocc] at hc
      exact Bool.noConfusion hc
    | some idx2 =>
      dsimp only []
      obtain ⟨hge, hocc2, hleast⟩ := bfind_spec hf
      have hle : idx2 ≤ idx := by
        by_contra hgt
        push_neg at hgt
        have hc := hleast idx h1 hgt
        rw [hocc] at hc
        exact Bool.noConfusion hc
      rcases Nat.eq_or_lt_of_le hle with rfl | hlt
      · rw [hsm]
        simp only [if_true]
        rw [hparse]
      · have hql := h3 idx2 hge hlt
        cases hsm2 : structMatched buf key idx2 with
        | false =>
          simp only [Bool.false_eq_true, if_false]
          exact ih (idx2 + 1) mf (by omega) (by omega)
            (fun j hj1 hj2 => h3 j (by omega) hj2)
        | true =>
          have hpnone : parse_value_at buf (skipMemo buf (idx2 + key.length)) = none := by
            cases hp2 : parse_value_at buf (skipMemo buf (idx2 + key.length)) with
            | none => rfl
            | some y =>
              exfalso
              have : qualifiesB buf key idx2 = true :=
                qualifiesB_iff.mpr ⟨hocc2, hsm2, by rw [hp2]; rfl⟩
              rw [hql] at this
              exact Bool.noConfusion this
          simp only [if_true]
          rw [hpnone]
          exact ih (idx2 + 1) (mf + 1) (by omega) (by omega)
            (fun j hj1 hj2 => h3 j (by omega) hj2)

theorem patchLoopF_varNotFound (buf key : List Nat) (v : PyVal) :
    ∀ fuel i, (∀ j, i ≤ j → structOccB buf key j = false) →
      patchLoopF buf key v i 0 fuel = .error .varNotFound := by
  intro fuel
  induction fuel with
  | zero => intro i h; simp [patchLoopF, patchFinish]
  | succ f ih =>
    intro i h
    simp only [patchLoopF]
    split
    · cases hf : bfind buf key i with
      | none => simp [patchFinish]
      | some idx2 =>
        dsimp only []
        obtain ⟨hge, hocc2, -⟩ := bfind_spec hf
        have hso := h idx2 hge
        have hsm2 : structMatched buf key idx2 = false := by
          cases hsmc : structMatched buf key idx2 with
          | false => rfl
          | true =>
            exfalso
            have : structOccB buf key idx2 = true := by
              simp [structOccB, hocc2, hsmc]
            rw [hso] at this
            exact Bool.noConfusion this
        rw [hsm2]
        simp only [Bool.false_eq_true, if_false]
        exact ih (idx2 + 1) (fun j hj => h j (by omega))
    · simp [patchFinish]

theorem patchLoopF_ambiguous (buf key : List Nat) (v : PyVal) :
    ∀ fuel i mf, buf.length + 1 ≤ fuel + i →
      (∀ j, i ≤ j → qualifiesB buf key j = false) →
      (mf ≠ 0 ∨ ∃ j, i ≤ j ∧ j < buf.length ∧ structOccB buf key j = true) →
      patchLoopF buf key v i mf fuel = .error .ambiguous := by
  intro fuel
  induction fuel with
  | zero =>
    intro i mf h2 hq hd
    rcases hd with hmf | ⟨j, hj1, hj2, -⟩
    · simp [patchLoopF, patchFinish, hmf]
    · omega
  | succ f ih =>
    intro i mf h2 hq hd
    simp only [patchLoopF]
    split
    · next hguard =>
      cases hf : bfind buf key i with
      | none =>
        rcases hd with hmf | ⟨j, hj1, hj2, hso⟩
        · simp [patchFinish, hmf]
        · exfalso
          have hc := bfind_eq_none hf j hj1
          rw [(structOccB_parts hso).1] at hc
          exact Bool.noConfusion hc
      | some idx2 =>
        dsimp only []
        obtain ⟨hge, hocc2, hleast⟩ := bfind_spec hf
        cases hsm2 : structMatched buf key idx2 with
        | true =>
          have hpnone : parse_value_at buf (skipMemo buf (idx2 + key.length)) = none := by
            cases hp2 : parse_value_at buf (skipMemo buf (idx2 + key.length)) with
            | none => rfl
            | some y =>
              exfalso
              have : qualifiesB buf key idx2 = true :=
                qualifiesB_iff.mpr ⟨hocc2, hsm2, by rw [hp2]; rfl⟩
              rw [hq idx2 hge] at this
              exact Bool.noConfusion this
          simp only [if_true]
          rw [hpnone]
          exact ih (idx2 + 1) (mf + 1) (by omega)
            (fun j hj => hq j (by omega)) (Or.inl (by omega))
        | false =>
          simp only [Bool.false_eq_true, if_false]
          refine ih (idx2 + 1) mf (by omega) (fun j hj => hq j (by omega)) ?_
          rcases hd with hmf | ⟨j, hj1, hj2, hso⟩
          · exact Or.inl hmf
          · right
            refine ⟨j, ?_, hj2, hso⟩
            obtain ⟨hjo, hjs⟩ := structOccB_parts hso
            by_contra hjlt
            push_neg at hjlt
            rcases Nat.lt_or_ge j idx2 with hlt | hge2
            · have hc := hleast j hj1 hlt
              rw [hjo] at hc
              exact Bool.noConfusion hc
            · have : j = idx2 := by omega
              subst this
              rw [hsm2] at hjs
              exact Bool.noConfusion hjs
    · next hguard =>
      rcases hd with hmf | ⟨j, hj1, hj2, hso⟩
      · simp [patchFinish, hmf]
      · omega

theorem patch_eq_patchAtMatch (buf key : List Nat) (v : PyVal) (idx : Nat)
    (hq : qualifiesB buf key idx = true)
    (hfirst : ∀ j, j < idx → qualifiesB buf key j = false) :
    patch_variable_in_log buf key v = patchAtMatch buf key v idx :=
  patchLoopF_success buf key v idx hq (buf.length + 1) 0 0 (Nat.zero_le _)
    (by omega) (fun j _ hj2 => hfirst j hj2)

theorem structOccB_lt {buf key : List Nat} (hk : key ≠ []) {j : Nat}
    (h : structOccB buf key j = true) : j < buf.length := by
  have hb := occursAtB_bound (structOccB_parts h).1
  have hpos : 0 < key.length := List.length_pos.mpr hk
  omega

theorem patchAtMatch_ne_lookup_errors (buf key : List Nat) (v : PyVal) (idx : Nat)
    (hps : (parse_value_at buf (skipMemo buf (idx + key.length))).isSome = true) :
    patchAtMatch buf key v idx ≠ .error .varNotFound ∧
      patchAtMatch buf key v idx ≠ .error .ambiguous := by
  obtain ⟨⟨dv, e, t⟩, hp⟩ := Option.isSome_iff_exists.mp hps
  unfold patchAtMatch
  dsimp only []
  rw [hp]
  cases encode_scalar v <;> simp

/-! ## Claims C1 and C2: the patch engine's success and failure behavior -/

/-- Claim C1: for every log byte buffer, variable name (as its latin-1 key
bytes) and encodable new value, `patch_variable_in_log` operates on the
first byte-occurrence of the name that passes the structural string-header
check and is followed, after skipping memo-store opcodes, by a decodable
scalar: the result is exactly the unchanged bytes up to the value's start,
then the new encoding, then the unchanged bytes from the old value's end;
the located span satisfies `start ≤ end ≤ length`, so no byte outside it is
altered, and the input buffer — an immutable value here, as the source
builds `prefix + replacement + suffix` rather than mutating — is untouched. -/
theorem c1_patch_replaces_first_qualifying_occurrence
    (logBytes key : List Nat) (newValue : PyVal) (rep : List Nat)
    (idx : Nat) (dv : DecVal) (vend : Nat) (tg : Tag)
    (hq : qualifiesB logBytes key idx = true)
    (hfirst : ∀ j, j < idx → qualifiesB logBytes key j = false)
    (hp : parse_value_at logBytes (skipMemo logBytes (idx + key.length)) =
      some (dv, vend, tg))
    (henc : encode_scalar newValue = .ok rep) :
    patch_variable_in_log logBytes key newValue =
      .ok (logBytes.take (skipMemo logBytes (idx + key.length)) ++ rep ++
        logBytes.drop vend) ∧
    skipMemo logBytes (idx + key.length) ≤ vend ∧ vend ≤ logBytes.length := by
  have hb := parse_value_at_bounds hp
  refine ⟨?_, by omega, hb.2⟩
  rw [patch_eq_patchAtMatch logBytes key newValue idx hq hfirst]
  unfold patchAtMatch
  dsimp only []
  rw [hp, henc]

theorem c1_witness :
    patch_variable_in_log [85, 1, 97, 75, 1] [97] (.pyInt 7) =
      .ok (([85, 1, 97, 75, 1] : List Nat).take
          (skipMemo [85, 1, 97, 75, 1] (2 + ([97] : List Nat).length)) ++ [75, 7] ++
        ([85, 1, 97, 75, 1] : List Nat).drop 5) ∧
    skipMemo [85, 1, 97, 75, 1] (2 + ([97] : List Nat).length) ≤ 5 ∧
      5 ≤ ([85, 1, 97, 75, 1] : List Nat).length :=
  c1_patch_replaces_first_qualifying_occurrence [85, 1, 97, 75, 1] [97]
    (.pyInt 7) [75, 7] 2 (.scalar (.pyInt 1)) 5 .tBININT1
    (by decide) (by decide) (by decide) rfl

/-- Claim C2, counterexample to the claim as stated over *every* name: for
the empty name, the byte pair `0x55 0x00` at the end of the buffer is a
structurally matching occurrence (a SHORT_BINSTRING header of length 0 at
index 2), yet the scan loop, whose guard stops before index 2, reports
`VariableNotFound` — so "fails with VariableNotFound exactly when no
byte-occurrence structurally matches" is false for the empty name. -/
theorem c2_counterexample :
    patch_variable_in_log [85, 0] [] (.pyInt 0) = .error .varNotFound ∧
    structOccB [85, 0] [] 2 = true :=
  ⟨rfl, rfl⟩

/-- Claim C2 (amended: for *nonempty* names): patch fails with
`VariableNotFound` exactly when no byte-occurrence of the name structurally
matches a recognized string-encoding header anywhere in the buffer, and with
`AmbiguousEncoding` exactly when at least one occurrence structurally
matches but no matched occurrence is followed (after memo-skip) by a
decodable scalar; in either failure no new buffer is produced (the
result is an `error`, never an `ok`). -/
theorem c2_patch_failure_classification (logBytes key : List Nat)
    (newValue : PyVal) (hk : key ≠ []) :
    (patch_variable_in_log logBytes key newValue = .error .varNotFound ↔
      ∀ j, structOccB logBytes key j = false) ∧
    (patch_variable_in_log logBytes key newValue = .error .ambiguous ↔
      ((∃ j, structOccB logBytes key j = true) ∧
        ∀ j, structOccB logBytes key j = true →
          parse_value_at logBytes (skipMemo logBytes (j + key.length)) = none)) := by
  by_cases hex : ∃ j, qualifiesB logBytes key j = true
  · have hq0 := Nat.find_spec hex
    have hfirst : ∀ j, j < Nat.find hex → qualifiesB logBytes key j = false :=
      fun j hj => Bool.eq_false_iff.mpr (Nat.find_min hex hj)
    have hqparts := qualifiesB_iff.mp hq0
    have hso0 : structOccB logBytes key (Nat.find hex) = true := by
      simp [structOccB, hqparts.1, hqparts.2.1]
    have hpatch := patch_eq_patchAtMatch logBytes key newValue (Nat.find hex) hq0 hfirst
    have hne := patchAtMatch_ne_lookup_errors logBytes key newValue (Nat.find hex)
      hqparts.2.2
    constructor
    · apply iff_of_false
      · rw [hpatch]; exact hne.1
      · intro hall
        have hc := hall (Nat.find hex)
        rw [hso0] at hc
        exact Bool.noConfusion hc
    · apply iff_of_false
      · rw [hpatch]; exact hne.2
      · rintro ⟨-, hforall⟩
        have hps := hqparts.2.2
        rw [hforall (Nat.find hex) hso0] at hps
        exact Bool.noConfusion hps
  · push_neg at hex
    have hqall : ∀ j, qualifiesB logBytes key j = false :=
      fun j => Bool.eq_false_iff.mpr (hex j)
    have hparse_none : ∀ j, structOccB logBytes key j = true →
        parse_value_at logBytes (skipMemo logBytes (j + key.length)) = none := by
      intro j hsoj
      cases hp : parse_value_at logBytes (skipMemo logBytes (j + key.length)) with
      | none => rfl
      | some y =>
        exfalso
        have hqj : qualifiesB logBytes key j = true :=
          qualifiesB_iff.mpr ⟨(structOccB_parts hsoj).1, (structOccB_parts hsoj).2,
            by rw [hp]; rfl⟩
        rw [hqall j] at hqj
        exact Bool.noConfusion hqj
    by_cases hso : ∃ j, structOccB logBytes key j = true
    · obtain ⟨js, hjs⟩ := hso
      have hpatch : patch_variable_in_log logBytes key newValue = .error .ambiguous := by
        apply patchLoopF_ambiguous logBytes key newValue (logBytes.length + 1) 0 0
          (by omega) (fun j _ => hqall j)
        exact Or.inr ⟨js, Nat.zero_le _, structOccB_lt hk hjs, hjs⟩
      constructor
      · apply iff_of_false
        · rw [hpatch]; simp
        · intro hall
          have hc := hall js
          rw [hjs] at hc
          exact Bool.noConfusion hc
      · rw [hpatch]
        exact iff_of_true rfl ⟨⟨js, hjs⟩, hparse_none⟩
    · have hsall : ∀ j, structOccB logBytes key j = false :=
        fun j => Bool.eq_false_iff.mpr (fun hc => hso ⟨j, hc⟩)
      have hpatch : patch_variable_in_log logBytes key newValue = .error .varNotFound :=
        patchLoopF_varNotFound logBytes key newValue (logBytes.length + 1) 0
          (fun j _ => hsall j)
      constructor
      · exact iff_of_true hpatch hsall
      · apply iff_of_false
        · rw [hpatch]; simp
        · rintro ⟨⟨j, hj⟩, -⟩
          rw [hsall j] at hj
          exact Bool.noConfusion hj

theorem c2_witness :
    (patch_variable_in_log [85, 1, 97, 75, 1] [97] (.pyInt 3) = .error .varNotFound ↔
      ∀ j, structOccB [85, 1, 97, 75, 1] [97] j = false) ∧
    (patch_variable_in_log [85, 1, 97, 75, 1] [97] (.pyInt 3) = .error .ambiguous ↔
      ((∃ j, structOccB [85, 1, 97, 75, 1] [97] j = true) ∧
        ∀ j, structOccB [85, 1, 97, 75, 1] [97] j = true →
          parse_value_at [85, 1, 97, 75, 1]
            (skipMemo [85, 1, 97, 75, 1] (j + ([97] : List Nat).length)) = none)) :=
  c2_patch_failure_classification [85, 1, 97, 75, 1] [97] (.pyInt 3) (by decide)

/-! ## Claim C10: interface safety of the scalar decoder -/

/-- Claim C10: the scalar decoder is total at its interface: the Lean
embedding is a total function (the Python function can only raise via
out-of-range reads, and every read below is bounds-guarded), it returns
`none` at any position at or past the end of the buffer, and whenever it
returns `some (value, end, tag)` the end position satisfies
`pos < end ≤ len(buffer)`, so the parse consumed at least one byte and
never extends past the buffer. -/
theorem c10_parse_value_at_interface_safety (data : List Nat) (pos : Nat) :
    (data.length ≤ pos → parse_value_at data pos = none) ∧
    ∀ dv e t, parse_value_at data pos = some (dv, e, t) →
      pos < e ∧ e ≤ data.length := by
  constructor
  · intro hge
    unfold parse_value_at
    dsimp only []
    rw [if_pos hge]
  · intro dv e t h
    exact parse_value_at_bounds h

theorem c10_witness :
    parse_value_at [75, 7] 5 = none ∧
      (0 < 2 ∧ 2 ≤ ([75, 7] : List Nat).length) :=
  ⟨(c10_parse_value_at_interface_safety [75, 7] 5).1 (by decide),
   (c10_parse_value_at_interface_safety [75, 7] 0).2 (.scalar (.pyInt 7)) 2
     .tBININT1 (by decide)⟩

/-! ## Arithmetic facts about the byte codecs -/

theorem toLE_length : ∀ k x, (toLE k x).length = k := by
  intro k
  induction k with
  | zero => intro x; rfl
  | succ n ih => intro x; simp [toLE, ih]

theorem leVal_toLE : ∀ k x, x < 256 ^ k → leVal (toLE k x) = x := by
  intro k
  induction k with
  | zero => intro x hx; interval_cases x; rfl
  | succ n ih =>
    intro x hx
    have hdiv : x / 256 < 256 ^ n := by
      rw [Nat.div_lt_iff_lt_mul (by norm_num)]
      calc x < 256 ^ (n + 1) := hx
        _ = 256 ^ n * 256 := by ring
    simp only [toLE, leVal, ih (x / 256) hdiv]
    omega

theorem bitLenF_lt : ∀ fuel n, n ≤ fuel → n < 2 ^ bitLenF fuel n := by
  intro fuel
  induction fuel with
  | zero => intro n h; interval_cases n; simp [bitLenF]
  | succ f ih =>
    intro n h
    simp only [bitLenF]
    split
    · omega
    · next hne =>
      have hd : n / 2 ≤ f := by omega
      have := ih (n / 2) hd
      have hp : 2 ^ (bitLenF f (n / 2) + 1) = 2 * 2 ^ bitLenF f (n / 2) := by ring
      omega

theorem pyBitLen_lt (n : Nat) : n < 2 ^ pyBitLen n :=
  bitLenF_lt n n (le_refl n)

theorem signed32_emod (v : Int) (h1 : -2147483648 ≤ v) (h2 : v ≤ 2147483647) :
    signed32 (v % 2 ^ 32).toNat = v := by
  have hp : (2 : Int) ^ 32 = 4294967296 := by norm_num
  rw [hp]
  unfold signed32
  have hp31 : (2 : Nat) ^ 31 = 2147483648 := by norm_num
  have hp32 : (2 : Int) ^ 32 = 4294967296 := by norm_num
  rw [hp31, hp32]
  split <;> omega

theorem fromLEsigned_toLE (k : Nat) (v : Int) (hk : 1 ≤ k)
    (h1 : -(2 : Int) ^ (8 * k - 1) ≤ v) (h2 : v < 2 ^ (8 * k - 1)) :
    fromLEsigned (toLE k (v % (2 : Int) ^ (8 * k)).toNat) = v := by
  have hsplit : (2 : Int) ^ (8 * k) = 2 ^ (8 * k - 1) * 2 := by
    rw [← pow_succ]
    congr 1
    omega
  have hpos : (0 : Int) < 2 ^ (8 * k) := by positivity
  have hnn : 0 ≤ v % (2 : Int) ^ (8 * k) := Int.emod_nonneg v (by positivity)
  have hlt : v % (2 : Int) ^ (8 * k) < 2 ^ (8 * k) := Int.emod_lt_of_pos v hpos
  have hemod : v % (2 : Int) ^ (8 * k) = v ∨
      v % (2 : Int) ^ (8 * k) = v + 2 ^ (8 * k) := by
    rcases le_or_lt 0 v with hv | hv
    · left
      exact Int.emod_eq_of_lt hv (by linarith)
    · right
      have hr : (v + 2 ^ (8 * k) * 1) % 2 ^ (8 * k) = v % 2 ^ (8 * k) :=
        Int.add_mul_emod_self_left v (2 ^ (8 * k)) 1
      rw [mul_one] at hr
      have he : (v + 2 ^ (8 * k)) % 2 ^ (8 * k) = v + 2 ^ (8 * k) :=
        Int.emod_eq_of_lt (by linarith) (by linarith)
      rw [← hr, he]
  set u := (v % (2 : Int) ^ (8 * k)).toNat with hudef
  have hcastu : (u : Int) = v % (2 : Int) ^ (8 * k) := Int.toNat_of_nonneg hnn
  have hcN : ((2 ^ (8 * k - 1) : Nat) : Int) = 2 ^ (8 * k - 1) := by
    push_cast; ring
  have hu256 : u < 256 ^ k := by
    have h256 : ((256 ^ k : Nat) : Int) = 2 ^ (8 * k) := by
      push_cast
      rw [show (256 : Int) = 2 ^ 8 by norm_num, ← pow_mul]
    have hx : (u : Int) < ((256 ^ k : Nat) : Int) := by
      rw [hcastu, h256]; exact hlt
    exact_mod_cast hx
  have hlen := toLE_length k u
  have hlv := leVal_toLE k u hu256
  unfold fromLEsigned
  rw [hlen, hlv, if_neg (by omega : ¬ k = 0)]
  rcases hemod with he | he
  · have hueq : (u : Int) = v := by rw [hcastu, he]
    have hcond : u < 2 ^ (8 * k - 1) := by
      have hx : (u : Int) < ((2 ^ (8 * k - 1) : Nat) : Int) := by
        rw [hueq, hcN]; exact h2
      exact_mod_cast hx
    rw [if_pos hcond]
    exact hueq
  · have hueq : (u : Int) = v + 2 ^ (8 * k) := by rw [hcastu, he]
    have hcond : ¬ u < 2 ^ (8 * k - 1) := by
      intro hcon
      have hx : (u : Int) < ((2 ^ (8 * k - 1) : Nat) : Int) := by
        exact_mod_cast hcon
      rw [hcN] at hx
      have := hsplit
      linarith
    rw [if_neg hcond]
    linarith [hueq]

/-! ## Decoding each encoder output shape -/

set_option maxHeartbeats 1000000

theorem parse_shape_binint1 (x : Nat) :
    parse_value_at [BININT1, x] 0 = some (.scalar (.pyInt (x : Int)), 2, .tBININT1) := by
  simp [parse_value_at, BININT1]

theorem parse_shape_binint2 (x : Nat) (h : x < 2 ^ 16) :
    parse_value_at (BININT2 :: toLE 2 x) 0 =
      some (.scalar (.pyInt (x : Int)), 3, .tBININT2) := by
  have hl := toLE_length 2 x
  have hv := leVal_toLE 2 x (by norm_num at h ⊢; omega)
  simp [parse_value_at, BININT1, BININT2, byteSlice, hl, hv, List.take_of_length_le]

theorem parse_shape_binint (x : Nat) (h : x < 2 ^ 32) :
    parse_value_at (BININT :: toLE 4 x) 0 =
      some (.scalar (.pyInt (signed32 x)), 5, .tBININT) := by
  have hl := toLE_length 4 x
  have hv := leVal_toLE 4 x (by norm_num at h ⊢; omega)
  simp [parse_value_at, BININT1, BININT2, BININT, byteSlice, hl, hv,
    List.take_of_length_le]

theorem parse_shape_binfloat (bits : List Nat) (h : bits.length = 8) :
    parse_value_at (BINFLOAT :: bits) 0 =
      some (.scalar (.pyFloat bits), 9, .tBINFLOAT) := by
  simp [parse_value_at, BININT1, BININT2, BININT, BINFLOAT, byteSlice, h,
    List.take_of_length_le]

theorem parse_shape_bool (b : Bool) :
    parse_value_at [if b then NEWTRUE else NEWFALSE] 0 =
      some (.scalar (.pyBool b), 1, .tBOOL) := by
  cases b <;>
    simp [parse_value_at, BININT1, BININT2, BININT, BINFLOAT, NEWTRUE, NEWFALSE]

theorem parse_shape_long4 (mag : List Nat) (h : mag.length < 2 ^ 32) :
    parse_value_at (LONG4 :: (toLE 4 mag.length ++ mag)) 0 =
      some (.scalar (.pyInt (fromLEsigned mag)), 5 + mag.length, .tLONG4) := by
  have hl := toLE_length 4 mag.length
  have hv := leVal_toLE 4 mag.length (by norm_num at h ⊢; omega)
  simp only [parse_value_at, BININT1, BININT2, BININT, BINFLOAT, NEWTRUE,
    NEWFALSE, LONG1, LONG4, byteSlice]
  simp [hl, hv, List.take_of_length_le, List.take_append_eq_append_take,
    List.drop_append_eq_append_drop] <;> omega

theorem parse_shape_short_binstring (cs : List Nat) (h : cs.length ≤ 255) :
    parse_value_at (SHORT_BINSTRING :: cs.length :: cs) 0 =
      some (.scalar (.pyStr cs), 2 + cs.length, .tSHORT_BINSTRING) := by
  simp [parse_value_at, BININT1, BININT2, BININT, BINFLOAT, NEWTRUE, NEWFALSE,
    LONG1, LONG4, BINSTRING, SHORT_BINSTRING, byteSlice, List.take_of_length_le]
  omega

theorem parse_shape_binstring (cs : List Nat) (h : cs.length < 2 ^ 32) :
    parse_value_at (BINSTRING :: (toLE 4 cs.length ++ cs)) 0 =
      some (.scalar (.pyStr cs), 5 + cs.length, .tBINSTRING) := by
  have hl := toLE_length 4 cs.length
  have hv := leVal_toLE 4 cs.length (by norm_num at h ⊢; omega)
  simp [parse_value_at, BININT1, BININT2, BININT, BINFLOAT, NEWTRUE, NEWFALSE,
    LONG1, LONG4, BINSTRING, byteSlice, hl, hv, List.take_of_length_le,
    List.take_append_eq_append_take, List.drop_append_eq_append_drop]
  omega

theorem map_clamp_eq (l : List Nat) (h : ∀ c ∈ l, c < 256) :
    l.map (fun c => if c ≤ 255 then c else 63) = l := by
  induction l with
  | nil => rfl
  | cons a rest ih =>
    have ha := h a (List.mem_cons_self a rest)
    simp only [List.map_cons, if_pos (by omega : a ≤ 255)]
    rw [ih (fun c hc => h c (List.mem_cons_of_mem a hc))]

/-! ## Claim C3: encode/decode round trip -/

/-- Claim C3: for every supported scalar value — booleans, all integers
(including those outside the 32-bit signed range, which take the
variable-length `LONG4` form), finite floats (identified with their 8
`struct.pack('>d')` bytes), and strings of code points 0–255 — decoding the
bytes produced by `_encode_scalar` at position 0 yields exactly the value,
the full encoded length, and the tag of the encoding chosen for the value. -/
theorem c3_encode_decode_roundtrip (v : PyVal) (bs : List Nat)
    (hsupp : supportedScalar v = true)
    (henc : encode_scalar v = .ok bs) :
    parse_value_at bs 0 = some (.scalar v, bs.length, chosenTag v) := by
  cases v with
  | pyBool b =>
    simp only [encode_scalar, Except.ok.injEq] at henc
    subst henc
    simpa [chosenTag] using parse_shape_bool b
  | pyInt i =>
    simp only [encode_scalar] at henc
    split_ifs at henc with h1 h2 h3 h4
    · simp only [Except.ok.injEq] at henc
      subst henc
      have hsh := parse_shape_binint1 i.toNat
      rw [Int.toNat_of_nonneg h1.1] at hsh
      simpa [chosenTag, h1] using hsh
    · simp only [Except.ok.injEq] at henc
      subst henc
      have hx : i.toNat < 2 ^ 16 := by norm_num; omega
      have hsh := parse_shape_binint2 i.toNat hx
      rw [Int.toNat_of_nonneg h2.1] at hsh
      have hl := toLE_length 2 i.toNat
      simp only [chosenTag, if_neg h1, if_pos h2]
      simpa [hl] using hsh
    · simp only [Except.ok.injEq] at henc
      subst henc
      have hp32 : (2 : Int) ^ 32 = 4294967296 := by norm_num
      have hnn : 0 ≤ i % 2 ^ 32 := Int.emod_nonneg i (by norm_num)
      have hlt : i % 2 ^ 32 < 2 ^ 32 := Int.emod_lt_of_pos i (by norm_num)
      have hx : (i % 2 ^ 32).toNat < 2 ^ 32 := by
        norm_num
        omega
      have hsh := parse_shape_binint (i % 2 ^ 32).toNat hx
      rw [signed32_emod i (by omega) (by omega)] at hsh
      have hl := toLE_length 4 (i % 2 ^ 32).toNat
      simp only [chosenTag, if_neg h1, if_neg h2, if_pos h3]
      simpa [hl] using hsh
    · simp only [Except.ok.injEq] at henc
      subst henc
      set L := (pyBitLen i.natAbs + 8) / 8 with hLdef
      set mag := toLE L (i % (2 : Int) ^ (8 * L)).toNat with hmagdef
      have hL1 : 1 ≤ L := by rw [hLdef]; omega
      have hbl : pyBitLen i.natAbs + 1 ≤ 8 * L := by rw [hLdef]; omega
      have habs := pyBitLen_lt i.natAbs
      have hmono : (2 : Nat) ^ pyBitLen i.natAbs ≤ 2 ^ (8 * L - 1) :=
        Nat.pow_le_pow_right (by norm_num) (by omega)
      have habs2 : i.natAbs < 2 ^ (8 * L - 1) := by omega
      have hcast : ((2 ^ (8 * L - 1) : Nat) : Int) = (2 : Int) ^ (8 * L - 1) := by
        push_cast; ring
      have habsI : (i.natAbs : Int) < (2 : Int) ^ (8 * L - 1) := by
        rw [← hcast]
        exact_mod_cast habs2
      have hlo : -(2 : Int) ^ (8 * L - 1) ≤ i := by omega
      have hhi : i < (2 : Int) ^ (8 * L - 1) := by omega
      have hfl : fromLEsigned mag = i := by
        rw [hmagdef]
        exact fromLEsigned_toLE L i hL1 hlo hhi
      have hsh := parse_shape_long4 mag h4
      rw [hfl] at hsh
      have hgoal : (LONG4 :: (toLE 4 mag.length ++ mag)).length = 5 + mag.length := by
        simp [toLE_length]
        try omega
      rw [hgoal, show chosenTag (.pyInt i) = .tLONG4 from by
        simp [chosenTag, h1, h2, h3]]
      exact hsh
  | pyFloat bits =>
    simp only [encode_scalar, Except.ok.injEq] at henc
    subst henc
    have hlen : bits.length = 8 := by
      simp only [supportedScalar, finiteFloatBits, Bool.and_eq_true,
        beq_iff_eq] at hsupp
      exact hsupp.1.1
    have hgoal : (BINFLOAT :: bits).length = 9 := by simp [hlen]
    rw [hgoal, show chosenTag (.pyFloat bits) = .tBINFLOAT from rfl]
    exact parse_shape_binfloat bits hlen
  | pyStr cs =>
    have hall : ∀ c ∈ cs, c < 256 := by
      simp only [supportedScalar, List.all_eq_true, decide_eq_true_eq] at hsupp
      exact hsupp
    have hmap := map_clamp_eq cs hall
    simp only [encode_scalar] at henc
    rw [hmap] at henc
    split_ifs at henc with h1 h2
    · simp only [Except.ok.injEq] at henc
      subst henc
      have hsh := parse_shape_short_binstring cs h1
      have hgoal : (SHORT_BINSTRING :: cs.length :: cs).length = 2 + cs.length := by
        simp
        try omega
      rw [hgoal, show chosenTag (.pyStr cs) = .tSHORT_BINSTRING from by
        simp [chosenTag, h1]]
      exact hsh
    · simp only [Except.ok.injEq] at henc
      subst henc
      have hsh := parse_shape_binstring cs h2
      have hgoal : (BINSTRING :: (toLE 4 cs.length ++ cs)).length = 5 + cs.length := by
        simp [toLE_length]
        try omega
      rw [hgoal, show chosenTag (.pyStr cs) = .tBINSTRING from by
        simp [chosenTag, h1]]
      exact hsh
  | pyOther d => simp [supportedScalar] at hsupp

theorem c3_witness :
    supportedScalar (.pyInt 70000) = true ∧
      parse_value_at [74, 112, 17, 1, 0] 0 =
        some (.scalar (.pyInt 70000), ([74, 112, 17, 1, 0] : List Nat).length,
          chosenTag (.pyInt 70000)) :=
  ⟨by decide, c3_encode_decode_roundtrip (.pyInt 70000) [74, 112, 17, 1, 0]
    (by decide) rfl⟩

/-! ## Claim C4: the encoder's choice of form -/

/-- Claim C4: integer encoding picks the 1-byte unsigned form iff
`0 ≤ v ≤ 255`, the 2-byte little-endian unsigned form iff `256 ≤ v ≤ 65535`,
the 4-byte little-endian signed form iff `v` is otherwise within the 32-bit
signed range, and otherwise the variable-length `LONG4` form (the hypothesis
`hL` states that the magnitude's byte length fits the 4-byte length prefix,
which the claim's "4-byte length prefix" presupposes); every float encodes
as the 8-byte big-endian form, every boolean as one of the two single-byte
boolean opcodes, whose byte differs from every integer-form opcode; and
encoding a value of any other type fails with the unsupported-type error. -/
theorem c4_encoder_form_choice (i : Int) (bits : List Nat) (b : Bool) (d : String)
    (hL : (pyBitLen i.natAbs + 8) / 8 < 2 ^ 32) (hbits : bits.length = 8) :
    (∃ bs, encode_scalar (.pyInt i) = .ok bs ∧
      ((bs.head? = some BININT1) ↔ (0 ≤ i ∧ i ≤ 255)) ∧
      ((bs.head? = some BININT2) ↔ (256 ≤ i ∧ i ≤ 65535)) ∧
      ((bs.head? = some BININT) ↔
        ((-2147483648 ≤ i ∧ i ≤ 2147483647) ∧ ¬(0 ≤ i ∧ i ≤ 65535))) ∧
      ((bs.head? = some LONG4) ↔ (i < -2147483648 ∨ 2147483647 < i))) ∧
    (encode_scalar (.pyFloat bits) = .ok (BINFLOAT :: bits) ∧
      (BINFLOAT :: bits).length = 9) ∧
    (encode_scalar (.pyBool b) = .ok [if b then NEWTRUE else NEWFALSE] ∧
      (if b then NEWTRUE else NEWFALSE) ≠ BININT1 ∧
      (if b then NEWTRUE else NEWFALSE) ≠ BININT2 ∧
      (if b then NEWTRUE else NEWFALSE) ≠ BININT ∧
      (if b then NEWTRUE else NEWFALSE) ≠ LONG1 ∧
      (if b then NEWTRUE else NEWFALSE) ≠ LONG4) ∧
    encode_scalar (.pyOther d) = .error (.unsupportedType d) := by
  refine ⟨?_, ⟨rfl, by simp [hbits]⟩,
    ⟨rfl, by cases b <;> simp [NEWTRUE, NEWFALSE, BININT1, BININT2, BININT,
      LONG1, LONG4]⟩, rfl⟩
  simp only [encode_scalar]
  split_ifs with h1 h2 h3 h4
  · refine ⟨[BININT1, i.toNat], rfl, ?_, ?_, ?_, ?_⟩ <;>
      simp [BININT1, BININT2, BININT, LONG4] <;> omega
  · refine ⟨BININT2 :: toLE 2 i.toNat, rfl, ?_, ?_, ?_, ?_⟩ <;>
      simp [BININT1, BININT2, BININT, LONG4] <;> omega
  · refine ⟨BININT :: toLE 4 (i % 2 ^ 32).toNat, rfl, ?_, ?_, ?_, ?_⟩ <;>
      simp [BININT1, BININT2, BININT, LONG4] <;> omega
  · refine ⟨_, rfl, ?_, ?_, ?_, ?_⟩ <;>
      simp [BININT1, BININT2, BININT, LONG4] <;> omega
  · exfalso
    rw [toLE_length] at h4
    omega

theorem c4_witness :
    (∃ bs, encode_scalar (.pyInt 300) = .ok bs ∧
      ((bs.head? = some BININT1) ↔ ((0 : Int) ≤ 300 ∧ (300 : Int) ≤ 255)) ∧
      ((bs.head? = some BININT2) ↔ ((256 : Int) ≤ 300 ∧ (300 : Int) ≤ 65535)) ∧
      ((bs.head? = some BININT) ↔
        (((-2147483648 : Int) ≤ 300 ∧ (300 : Int) ≤ 2147483647) ∧
          ¬((0 : Int) ≤ 300 ∧ (300 : Int) ≤ 65535))) ∧
      ((bs.head? = some LONG4) ↔
        ((300 : Int) < -2147483648 ∨ (2147483647 : Int) < 300))) ∧
    (encode_scalar (.pyFloat [64, 69, 0, 0, 0, 0, 0, 0]) =
        .ok (BINFLOAT :: [64, 69, 0, 0, 0, 0, 0, 0]) ∧
      (BINFLOAT :: [64, 69, 0, 0, 0, 0, 0, 0]).length = 9) ∧
    (encode_scalar (.pyBool true) = .ok [if true then NEWTRUE else NEWFALSE] ∧
      (if true then NEWTRUE else NEWFALSE) ≠ BININT1 ∧
      (if true then NEWTRUE else NEWFALSE) ≠ BININT2 ∧
      (if true then NEWTRUE else NEWFALSE) ≠ BININT ∧
      (if true then NEWTRUE else NEWFALSE) ≠ LONG1 ∧
      (if true then NEWTRUE else NEWFALSE) ≠ LONG4) ∧
    encode_scalar (.pyOther "dict") = .error (.unsupportedType "dict") :=
  c4_encoder_form_choice 300 [64, 69, 0, 0, 0, 0, 0, 0] true "dict"
    (by decide) rfl

/-! ## Claims C5 and C6: the selective deserializer -/

/-- Claim C5, counterexample: when the unpickled root object is not a dict,
`load_save_variables` does not surface any `CorruptGraph` (or other) error —
it silently returns the empty table together with a `None` log, exactly the
"silently succeed with an empty table" outcome the claim rules out (the
caller only sees a generic "no editable variables" warning). -/
theorem c5_counterexample :
    load_save_variables (.oOther "RevertableList root") [1, 2] = ([], none) :=
  rfl

/-- Claim C5 (amended): for every log whose deserialized root object is not
a name-to-value mapping, `load_save_variables` raises nothing and returns
the empty table with a `None` log marker — no `CorruptGraph` error exists in
the code; the only errors surfaced to the caller are exceptions raised by
the unpickler itself. -/
theorem c5_non_mapping_root_is_silent (roots : PyObj) (log : List Nat)
    (h : isDictObj roots = false) :
    load_save_variables roots log = ([], none) := by
  cases roots <;> first
    | rfl
    | exact absurd h (by simp [isDictObj])

theorem c5_witness :
    load_save_variables (.oStr [115]) [7, 8, 9] = ([], none) :=
  c5_non_mapping_root_is_silent (.oStr [115]) [7, 8, 9] rfl

/-- Claim C6, counterexample: a class reference in the `builtins` module
that is outside the known engine container set does *not* resolve to the
inert placeholder: `find_class` falls into the `builtins` escape hatch,
`getattr(importlib.import_module('builtins'), name)` — a live lookup that
returns a real object (whose construction logic pickle will then invoke) or
raises `AttributeError`, so deserialization can raise and the placeholder
guarantee fails for such references. -/
theorem c6_counterexample :
    find_class "builtins" "GameState" = .builtinsLookup "GameState" ∧
      (find_class "builtins" "GameState").isProxy = false :=
  ⟨rfl, rfl⟩

/-- Claim C6 (amended: for class references whose module is not `builtins`):
any `(module, name)` outside the known engine container set (the exact
`_SPECIAL` table and the three bare revertable names) with
`module ≠ 'builtins'` resolves to the inert `_Proxy`-based placeholder
without invoking the referenced type's logic; every entry of the
`EditableTable` is an editable scalar, a placeholder instance never is one
(so placeholder-valued root entries are excluded), and every root entry
whose key is a string with the `store.` prefix and whose value is an
editable scalar is retained in the table. -/
theorem c6_unknown_class_tolerance (module name : String)
    (entries : List (PyObj × PyObj)) (cs : List Nat) (w : PyObj)
    (hsp : specialTable.lookup (module, name) = none)
    (h1 : name ≠ "RevertableList") (h2 : name ≠ "RevertableDict")
    (h3 : name ≠ "RevertableSet") (hm : module ≠ "builtins") :
    find_class module name = .proxy name ∧
    (∀ p ∈ buildVariables entries, isEditableScalar p.2 = true) ∧
    (∀ c : String, isEditableScalar (.oProxyInst c) = false) ∧
    ((PyObj.oStr cs, w) ∈ entries → startsStoreDot cs = true →
      isEditableScalar w = true → (cs, w) ∈ buildVariables entries) := by
  refine ⟨?_, ?_, fun c => rfl, ?_⟩
  · unfold find_class
    rw [hsp]
    rw [if_neg h1, if_neg h2, if_neg h3, if_neg hm]
  · intro p hp
    unfold buildVariables at hp
    rw [List.mem_filterMap] at hp
    obtain ⟨⟨k, velem⟩, -, hf⟩ := hp
    cases k with
    | oBool b => exact Option.noConfusion hf
    | oInt iv => exact Option.noConfusion hf
    | oFloat fb => exact Option.noConfusion hf
    | oDict es => exact Option.noConfusion hf
    | oProxyInst c => exact Option.noConfusion hf
    | oOther dd => exact Option.noConfusion hf
    | oStr cskey =>
      dsimp only [] at hf
      split at hf
      · next hcond =>
        cases hf
        exact (Bool.and_eq_true _ _ |>.mp hcond).2
      · exact Option.noConfusion hf
  · intro hmem hpre hsc
    unfold buildVariables
    rw [List.mem_filterMap]
    exact ⟨(PyObj.oStr cs, w), hmem, by simp [hpre, hsc]⟩

theorem c6_witness :
    find_class "game" "Inventory" = .proxy "Inventory" ∧
    (∀ p ∈ buildVariables
        [(PyObj.oStr [115, 116, 111, 114, 101, 46, 103], PyObj.oInt 3),
         (PyObj.oStr [115, 116, 111, 114, 101, 46, 104], PyObj.oProxyInst "Inventory")],
      isEditableScalar p.2 = true) ∧
    (∀ c : String, isEditableScalar (.oProxyInst c) = false) ∧
    ((PyObj.oStr [115, 116, 111, 114, 101, 46, 103], PyObj.oInt 3) ∈
        [(PyObj.oStr [115, 116, 111, 114, 101, 46, 103], PyObj.oInt 3),
         (PyObj.oStr [115, 116, 111, 114, 101, 46, 104], PyObj.oProxyInst "Inventory")] →
      startsStoreDot [115, 116, 111, 114, 101, 46, 103] = true →
      isEditableScalar (PyObj.oInt 3) = true →
      ([115, 116, 111, 114, 101, 46, 103], PyObj.oInt 3) ∈ buildVariables
        [(PyObj.oStr [115, 116, 111, 114, 101, 46, 103], PyObj.oInt 3),
         (PyObj.oStr [115, 116, 111, 114, 101, 46, 104], PyObj.oProxyInst "Inventory")]) :=
  c6_unknown_class_tolerance "game" "Inventory"
    [(PyObj.oStr [115, 116, 111, 114, 101, 46, 103], PyObj.oInt 3),
     (PyObj.oStr [115, 116, 111, 114, 101, 46, 104], PyObj.oProxyInst "Inventory")]
    [115, 116, 111, 114, 101, 46, 103] (PyObj.oInt 3)
    rfl (by simp) (by simp) (by simp) (by simp)

/-! ## Claim C7: the archive repackager -/

/-- Claim C7, counterexample: a source archive whose `log` entry is STORED
(compression method 0) is repackaged with a DEFLATED (method 8) `log` entry
— `save_modified_save` forces `ZIP_DEFLATED` on the rebuilt entries instead
of keeping "the same compression method as the source entries", and the
fresh `ZipInfo` resets the remaining metadata (`otherMeta` 3 becomes the
default 0). -/
theorem c7_counterexample :
    save_modified_save [⟨"log", 5, 6, 3, 0, [1, 2]⟩] [9] (fun _ => []) =
      [⟨"log", 5, 6, 0, 8, [9]⟩] :=
  rfl

theorem zread_self (src : List ZipEntry) (e : ZipEntry)
    (hd : src.Pairwise (fun a b => a.name ≠ b.name)) (he : e ∈ src) :
    zread src e.name = e.content := by
  induction src with
  | nil => cases he
  | cons a rest ih =>
    rw [List.pairwise_cons] at hd
    rcases List.mem_cons.mp he with rfl | hmem
    · have hfilter : rest.filter (fun x => x.name == e.name) = [] := by
        rw [List.filter_eq_nil]
        intro x hx
        simp only [beq_iff_eq]
        exact fun hc => hd.1 x hx (hc ▸ rfl)
      unfold zread
      simp [List.filter_cons, hfilter]
    · have hne : (a.name == e.name) = false := by
        simp only [beq_eq_false_iff_ne]
        exact hd.1 e hmem
      have := ih hd.2 hmem
      unfold zread at this ⊢
      simp only [List.filter_cons, hne]
      exact this

/-- Claim C7 (amended): for every source archive with pairwise-distinct
entry names, repackaging maps each entry by name: the `log` entry is
replaced by the new log bytes and the `signatures` entry by the generated
signature block — both forced to DEFLATED compression and fresh default
metadata apart from `date_time` and `external_attr` — while every other
entry is copied completely unchanged (same content bytes, compression
method and metadata); the list of entry names, in order, is preserved, so
no `signatures` entry is invented when the source lacks one. -/
theorem c7_repackage_behavior (src : List ZipEntry) (newLog : List Nat)
    (sigOf : List Nat → List Nat)
    (hd : src.Pairwise (fun a b => a.name ≠ b.name)) :
    save_modified_save src newLog sigOf =
      src.map (fun e =>
        if e.name = "log" then
          ⟨e.name, e.dateTime, e.externalAttr, 0, ZIP_DEFLATED, newLog⟩
        else if e.name = "signatures" then
          ⟨e.name, e.dateTime, e.externalAttr, 0, ZIP_DEFLATED, sigOf newLog⟩
        else e) ∧
    (save_modified_save src newLog sigOf).map ZipEntry.name =
      src.map ZipEntry.name := by
  have hmain : save_modified_save src newLog sigOf =
      src.map (fun e =>
        if e.name = "log" then
          ⟨e.name, e.dateTime, e.externalAttr, 0, ZIP_DEFLATED, newLog⟩
        else if e.name = "signatures" then
          ⟨e.name, e.dateTime, e.externalAttr, 0, ZIP_DEFLATED, sigOf newLog⟩
        else e) := by
    unfold save_modified_save
    apply List.map_congr_left
    intro e he
    split
    · rfl
    · split
      · rfl
      · have hz := zread_self src e hd he
        rw [hz]
  refine ⟨hmain, ?_⟩
  rw [hmain, List.map_map]
  apply List.map_congr_left
  intro e _
  simp only [Function.comp]
  split
  · rfl
  · split <;> rfl

theorem c7_witness :
    save_modified_save
        [⟨"log", 1, 2, 3, 8, [10, 20]⟩, ⟨"extra", 4, 5, 6, 0, [30]⟩,
         ⟨"signatures", 7, 8, 9, 8, [40]⟩] [99] (fun l => 55 :: l) =
      [⟨"log", 1, 2, 0, 8, [99]⟩, ⟨"extra", 4, 5, 6, 0, [30]⟩,
       ⟨"signatures", 7, 8, 0, 8, [55, 99]⟩] ∧
    (save_modified_save
        [⟨"log", 1, 2, 3, 8, [10, 20]⟩, ⟨"extra", 4, 5, 6, 0, [30]⟩,
         ⟨"signatures", 7, 8, 9, 8, [40]⟩] [99]
        (fun l => 55 :: l)).map ZipEntry.name =
      ["log", "extra", "signatures"] := by
  have h := c7_repackage_behavior
    [⟨"log", 1, 2, 3, 8, [10, 20]⟩, ⟨"extra", 4, 5, 6, 0, [30]⟩,
     ⟨"signatures", 7, 8, 9, 8, [40]⟩] [99] (fun l => 55 :: l)
    (by simp)
  exact ⟨h.1.trans rfl, h.2.trans rfl⟩

/-! ## Claim C8: signature-engine leniency -/

theorem joinNlSep_append_nl (lines : List (List Nat)) (h : lines ≠ []) :
    joinNlSep lines ++ [10] = (lines.map (fun l => l ++ [10])).flatten := by
  induction lines with
  | nil => cases h rfl
  | cons l rest ih =>
    cases rest with
    | nil => simp [joinNlSep]
    | cons l2 rest2 =>
      calc joinNlSep (l :: l2 :: rest2) ++ [10]
          = (l ++ [10]) ++ (joinNlSep (l2 :: rest2) ++ [10]) := by
            simp [joinNlSep, List.append_assoc]
        _ = (l ++ [10]) ++ ((l2 :: rest2).map (fun x => x ++ [10])).flatten := by
            rw [ih (by simp)]
        _ = ((l :: l2 :: rest2).map (fun x => x ++ [10])).flatten := by
            simp

/-- Claim C8: `sign` returns an empty byte sequence — not an error — when no
key-store file exists at any candidate path, when the discovered store
yields no parseable keys, or when the `ecdsa` module is unavailable; and in
the normal path the output is exactly the concatenation of one
newline-terminated `signature <b64 vk> <b64 sig>` line per key that parses
and signs successfully, keys that fail being skipped silently (the
`filterMap`), which also covers the "no successful key" empty output. -/
theorem c8_sign_leniency (env : SignEnv) (logBytes : List Nat) :
    (find_security_keys env = none → signatures_for_log env logBytes = []) ∧
    (∀ p, find_security_keys env = some p → env.keysInStore p = [] →
      signatures_for_log env logBytes = []) ∧
    (∀ p, find_security_keys env = some p → env.ecdsaAvailable = false →
      signatures_for_log env logBytes = []) ∧
    (∀ p, find_security_keys env = some p → env.ecdsaAvailable = true →
      signatures_for_log env logBytes =
        ((env.keysInStore p).filterMap fun der =>
          (env.derSign der logBytes).map
            fun pr => signatureLine pr.1 pr.2 ++ [10]).flatten) := by
  refine ⟨?_, ?_, ?_, ?_⟩
  · intro hnone
    unfold signatures_for_log
    rw [hnone]
  · intro p hp hkeys
    unfold signatures_for_log
    rw [hp]
    dsimp only []
    rw [hkeys]
    rfl
  · intro p hp hecd
    unfold signatures_for_log
    rw [hp]
    dsimp only []
    rw [hecd]
    split
    · rfl
    · rfl
  · intro p hp hecd
    unfold signatures_for_log
    rw [hp]
    dsimp only []
    rw [hecd]
    by_cases hk : env.keysInStore p = []
    · rw [hk]
      rfl
    · rw [if_neg (by simpa [List.isEmpty_iff] using hk)]
      simp only [Bool.not_true, Bool.false_eq_true, if_false]
      by_cases hl : (env.keysInStore p).filterMap
          (fun der => (env.derSign der logBytes).map
            fun pr => signatureLine pr.1 pr.2) = []
      · rw [if_pos (by simpa [List.isEmpty_iff] using hl)]
        rw [List.filterMap_eq_nil] at hl
        have hr : (env.keysInStore p).filterMap
            (fun der => (env.derSign der logBytes).map
              fun pr => signatureLine pr.1 pr.2 ++ [10]) = [] := by
          rw [List.filterMap_eq_nil]
          intro a ha
          have := hl a ha
          cases hds : env.derSign a logBytes with
          | none => simp
          | some pr => rw [hds] at this; simp at this
        rw [hr]
        rfl
      · rw [if_neg (by simpa [List.isEmpty_iff] using hl)]
        rw [joinNlSep_append_nl _ hl, List.map_filterMap]
        simp only [Option.map_map]
        rfl

theorem c8_witness :
    signatures_for_log envW [7] =
      ((envW.keysInStore "home/keys").filterMap fun der =>
        (envW.derSign der [7]).map
          fun pr => signatureLine pr.1 pr.2 ++ [10]).flatten :=
  (c8_sign_leniency envW [7]).2.2.2 "home/keys" rfl rfl

/-! ## Claim C9: order of independent edits -/

theorem patch_splice (buf key : List Nat) (v : PyVal) (idx p e : Nat)
    (dv : DecVal) (tg : Tag) (rep : List Nat)
    (hq : qualifiesB buf key idx = true)
    (hfirst : ∀ j, j < idx → qualifiesB buf key j = false)
    (hps : skipMemo buf (idx + key.length) = p)
    (hp : parse_value_at buf p = some (dv, e, tg))
    (henc : encode_scalar v = .ok rep) :
    patch_variable_in_log buf key v = .ok (buf.take p ++ rep ++ buf.drop e) := by
  rw [patch_eq_patchAtMatch buf key v idx hq hfirst]
  unfold patchAtMatch
  dsimp only []
  rw [hps, hp, henc]

/-- Claim C9, counterexample: two edits on distinct names `"a"` and `"b"`
where the replacement string written for `"a"` fabricates an earlier
structurally valid occurrence of `"b"`.  Both orders succeed, but
patching `"a"` then `"b"` hits the fabricated occurrence inside `"a"`'s
new value, while `"b"` then `"a"` patches the real binding — the final
buffers differ, refuting order-independence of independent-name edits. -/
theorem c9_counterexample :
    patch_variable_in_log [85, 1, 97, 75, 1, 85, 1, 98, 75, 2] [97]
        (.pyStr [85, 1, 98, 75, 9]) =
      .ok [85, 1, 97, 85, 5, 85, 1, 98, 75, 9, 85, 1, 98, 75, 2] ∧
    patch_variable_in_log [85, 1, 97, 85, 5, 85, 1, 98, 75, 9, 85, 1, 98, 75, 2]
        [98] (.pyInt 7) =
      .ok [85, 1, 97, 85, 5, 85, 1, 98, 75, 7, 85, 1, 98, 75, 2] ∧
    patch_variable_in_log [85, 1, 97, 75, 1, 85, 1, 98, 75, 2] [98] (.pyInt 7) =
      .ok [85, 1, 97, 75, 1, 85, 1, 98, 75, 7] ∧
    patch_variable_in_log [85, 1, 97, 75, 1, 85, 1, 98, 75, 7] [97]
        (.pyStr [85, 1, 98, 75, 9]) =
      .ok [85, 1, 97, 85, 5, 85, 1, 98, 75, 9, 85, 1, 98, 75, 7] ∧
    ([85, 1, 97, 85, 5, 85, 1, 98, 75, 7, 85, 1, 98, 75, 2] : List Nat) ≠
      [85, 1, 97, 85, 5, 85, 1, 98, 75, 9, 85, 1, 98, 75, 7] :=
  ⟨rfl, rfl, rfl, rfl, by decide⟩

/-- Claim C9 (amended): order among independent-name edits does not affect
the result *provided the selections are stable*: when the two names' first
qualifying occurrences in the original buffer carry disjoint value spans
(`k1`'s span `[p1, e1)` before `k2`'s `[p2, e2)`), and after either patch
the other name's first qualifying occurrence still designates the same span
(shifted by the first replacement's length change), then both orders
succeed and produce the same buffer — the double splice.  The stability
premises are necessary: the counterexample shows a replacement value that
fabricates an earlier occurrence of the other name and breaks
commutativity. -/
theorem c9_stable_edits_commute
    (L k1 k2 : List Nat) (v1 v2 : PyVal) (r1 r2 : List Nat)
    (idx1 idx2 idx2' idx1' p1 e1 p2 e2 : Nat)
    (d1 d2 d2' d1' : DecVal) (t1 t2 t2' t1' : Tag)
    (henc1 : encode_scalar v1 = .ok r1) (henc2 : encode_scalar v2 = .ok r2)
    (hq1 : qualifiesB L k1 idx1 = true)
    (hf1 : ∀ j, j < idx1 → qualifiesB L k1 j = false)
    (hps1 : skipMemo L (idx1 + k1.length) = p1)
    (hp1 : parse_value_at L p1 = some (d1, e1, t1))
    (hq2 : qualifiesB L k2 idx2 = true)
    (hf2 : ∀ j, j < idx2 → qualifiesB L k2 j = false)
    (hps2 : skipMemo L (idx2 + k2.length) = p2)
    (hp2 : parse_value_at L p2 = some (d2, e2, t2))
    (horder : e1 ≤ p2)
    (hq2' : qualifiesB (L.take p1 ++ r1 ++ L.drop e1) k2 idx2' = true)
    (hf2' : ∀ j, j < idx2' →
      qualifiesB (L.take p1 ++ r1 ++ L.drop e1) k2 j = false)
    (hps2' : skipMemo (L.take p1 ++ r1 ++ L.drop e1) (idx2' + k2.length) =
      p1 + r1.length + (p2 - e1))
    (hp2' : parse_value_at (L.take p1 ++ r1 ++ L.drop e1)
        (p1 + r1.length + (p2 - e1)) =
      some (d2', p1 + r1.length + (p2 - e1) + (e2 - p2), t2'))
    (hq1' : qualifiesB (L.take p2 ++ r2 ++ L.drop e2) k1 idx1' = true)
    (hf1' : ∀ j, j < idx1' →
      qualifiesB (L.take p2 ++ r2 ++ L.drop e2) k1 j = false)
    (hps1' : skipMemo (L.take p2 ++ r2 ++ L.drop e2) (idx1' + k1.length) = p1)
    (hp1' : parse_value_at (L.take p2 ++ r2 ++ L.drop e2) p1 =
      some (d1', e1, t1')) :
    patch_variable_in_log L k1 v1 = .ok (L.take p1 ++ r1 ++ L.drop e1) ∧
    patch_variable_in_log L k2 v2 = .ok (L.take p2 ++ r2 ++ L.drop e2) ∧
    patch_variable_in_log (L.take p1 ++ r1 ++ L.drop e1) k2 v2 =
      .ok (L.take p1 ++ r1 ++ (L.drop e1).take (p2 - e1) ++ r2 ++ L.drop e2) ∧
    patch_variable_in_log (L.take p2 ++ r2 ++ L.drop e2) k1 v1 =
      .ok (L.take p1 ++ r1 ++ (L.drop e1).take (p2 - e1) ++ r2 ++ L.drop e2) := by
  have hb1 := parse_value_at_bounds hp1
  have hb2 := parse_value_at_bounds hp2
  have hlenA : (L.take p1 ++ r1).length = p1 + r1.length := by
    simp [List.length_take]
    omega
  have hlenB : (L.take p2 ++ r2).length = p2 + r2.length := by
    simp [List.length_take]
    omega
  have h1 := patch_splice L k1 v1 idx1 p1 e1 d1 t1 r1 hq1 hf1 hps1 hp1 henc1
  have h2 := patch_splice L k2 v2 idx2 p2 e2 d2 t2 r2 hq2 hf2 hps2 hp2 henc2
  have h12 := patch_splice (L.take p1 ++ r1 ++ L.drop e1) k2 v2 idx2'
    (p1 + r1.length + (p2 - e1)) (p1 + r1.length + (p2 - e1) + (e2 - p2))
    d2' t2' r2 hq2' hf2' hps2' hp2' henc2
  have h21 := patch_splice (L.take p2 ++ r2 ++ L.drop e2) k1 v1 idx1'
    p1 e1 d1' t1' r1 hq1' hf1' hps1' hp1' henc1
  have hA : (L.take p1 ++ r1 ++ L.drop e1).take (p1 + r1.length + (p2 - e1)) =
      L.take p1 ++ r1 ++ (L.drop e1).take (p2 - e1) := by
    rw [List.take_append_eq_append_take,
      List.take_of_length_le (by rw [hlenA]; omega), hlenA]
    have harg : p1 + r1.length + (p2 - e1) - (p1 + r1.length) = p2 - e1 := by
      omega
    rw [harg]
  have hB : (L.take p1 ++ r1 ++ L.drop e1).drop
      (p1 + r1.length + (p2 - e1) + (e2 - p2)) = L.drop e2 := by
    rw [List.drop_append_eq_append_drop,
      List.drop_eq_nil_of_le (by rw [hlenA]; omega), hlenA, List.nil_append,
      List.drop_drop]
    have harg : e1 + (p1 + r1.length + (p2 - e1) + (e2 - p2) -
        (p1 + r1.length)) = e2 := by
      omega
    rw [harg]
  have hC : (L.take p2 ++ r2 ++ L.drop e2).take p1 = L.take p1 := by
    rw [List.take_append_eq_append_take,
      List.take_append_eq_append_take, List.take_take,
      min_eq_left (by omega : p1 ≤ p2)]
    have hz1 : p1 - (L.take p2).length = 0 := by
      simp [List.length_take]
      omega
    have hz2 : p1 - (L.take p2 ++ r2).length = 0 := by
      rw [hlenB]
      omega
    rw [hz1, hz2]
    simp
  have hD : (L.take p2 ++ r2 ++ L.drop e2).drop e1 =
      (L.drop e1).take (p2 - e1) ++ (r2 ++ L.drop e2) := by
    rw [List.drop_append_eq_append_drop,
      List.drop_append_eq_append_drop, List.drop_take]
    have hz1 : e1 - (L.take p2).length = 0 := by
      simp [List.length_take]
      omega
    have hz2 : e1 - (L.take p2 ++ r2).length = 0 := by
      rw [hlenB]
      omega
    rw [hz1, hz2]
    simp
  refine ⟨h1, h2, ?_, ?_⟩
  · rw [h12, hA, hB]
  · rw [h21, hC, hD]
    simp [List.append_assoc]

theorem c9_witness :
    patch_variable_in_log [85, 1, 97, 75, 1, 85, 1, 98, 75, 2] [97] (.pyInt 5) =
      .ok (([85, 1, 97, 75, 1, 85, 1, 98, 75, 2] : List Nat).take 3 ++ [75, 5] ++
        ([85, 1, 97, 75, 1, 85, 1, 98, 75, 2] : List Nat).drop 5) ∧
    patch_variable_in_log [85, 1, 97, 75, 1, 85, 1, 98, 75, 2] [98] (.pyInt 7) =
      .ok (([85, 1, 97, 75, 1, 85, 1, 98, 75, 2] : List Nat).take 8 ++ [75, 7] ++
        ([85, 1, 97, 75, 1, 85, 1, 98, 75, 2] : List Nat).drop 10) ∧
    patch_variable_in_log
        (([85, 1, 97, 75, 1, 85, 1, 98, 75, 2] : List Nat).take 3 ++ [75, 5] ++
          ([85, 1, 97, 75, 1, 85, 1, 98, 75, 2] : List Nat).drop 5) [98] (.pyInt 7) =
      .ok (([85, 1, 97, 75, 1, 85, 1, 98, 75, 2] : List Nat).take 3 ++ [75, 5] ++
        (([85, 1, 97, 75, 1, 85, 1, 98, 75, 2] : List Nat).drop 5).take (8 - 5) ++
        [75, 7] ++ ([85, 1, 97, 75, 1, 85, 1, 98, 75, 2] : List Nat).drop 10) ∧
    patch_variable_in_log
        (([85, 1, 97, 75, 1, 85, 1, 98, 75, 2] : List Nat).take 8 ++ [75, 7] ++
          ([85, 1, 97, 75, 1, 85, 1, 98, 75, 2] : List Nat).drop 10) [97] (.pyInt 5) =
      .ok (([85, 1, 97, 75, 1, 85, 1, 98, 75, 2] : List Nat).take 3 ++ [75, 5] ++
        (([85, 1, 97, 75, 1, 85, 1, 98, 75, 2] : List Nat).drop 5).take (8 - 5) ++
        [75, 7] ++ ([85, 1, 97, 75, 1, 85, 1, 98, 75, 2] : List Nat).drop 10) :=
  c9_stable_edits_commute [85, 1, 97, 75, 1, 85, 1, 98, 75, 2] [97] [98]
    (.pyInt 5) (.pyInt 7) [75, 5] [75, 7] 2 7 7 2 3 5 8 10
    (.scalar (.pyInt 1)) (.scalar (.pyInt 2)) (.scalar (.pyInt 2))
    (.scalar (.pyInt 1)) .tBININT1 .tBININT1 .tBININT1 .tBININT1
    rfl rfl (by decide) (by decide) (by decide) (by decide)
    (by decide) (by decide) (by decide) (by decide) (by decide)
    (by decide) (by decide) (by decide) (by decide)
    (by decide) (by decide) (by decide) (by decide)
